import Mathlib

/-!
# docker-metrics: the per-container sampling core (`metric/metric.go`)

A shallow embedding of `metric.go` and the properties of its rate computation,
its sample cycle and its teardown.

Modelling conventions.

* `float64` is modelled bit-exactly as far as values go: a finite value is
  `(-1)^neg * mant * 2^exp`, every operation computes the exact result and
  rounds it to the nearest binary64 value, ties to even (`F64.round`).
* `uint64` counters are `Nat` (below `2^64`; the only subtraction of counters
  in the file is guarded by `d >= self.Save[k]`, so it cannot wrap),
  `time.Duration` and `int64` are `Int`, an instant (`time.Time`) is an `Int` of
  nanoseconds since the Unix epoch.
* A Go map that is only read or written by key is an association list with
  unique keys; a map that is ranged over is the list of its entries *in the order
  the range statement visits them* (Go leaves that order unspecified, so a
  property of the code has to hold for every order).
* Strings are Lean strings; `strings.HasPrefix` compares bytes, which on
  well-formed UTF-8 text is the comparison of code points used here.
* Channels, goroutines and timers are represented by what the calling goroutine
  observes of them: the state of a channel (nil, open, closed), whether a peer is
  receiving on it, and which case of a `select` fires.
* The receiver `self *Metric` is passed in and returned; the package variable
  `gset` is the parameter `g`.
* Types and functions of the package that this file uses but does not declare
  (`Metric`, `Setting`, `Remote`, `DockerClient`, `getNetStats`,
  `DeleteContainerMetricMapKey`) are represented by what this file does with them.
-/

namespace DockerMetrics

/-! ## float64 -/

/-- A binary64 value: not-a-number, a signed infinity, or the finite value
`(-1)^neg * mant * 2^exp` (zero is `mant = 0`). -/
inductive F64 where
  | nan
  | inf (neg : Bool)
  | fin (neg : Bool) (mant : Nat) (exp : Int)
deriving DecidableEq, Repr

/-- Floor of the binary logarithm by repeated halving, `fuel` steps at most. -/
def log2Fuel : Nat → Nat → Nat
  | 0, _ => 0
  | f + 1, n => if n < 2 then 0 else log2Fuel f (n / 2) + 1

/-- Floor of the binary logarithm of `n` (0 for `n = 0`). -/
def floorLog2 (n : Nat) : Nat := log2Fuel n n

namespace F64

/-- Signed zero. -/
def zero (neg : Bool) : F64 := .fin neg 0 0

/-- Round the positive rational `n / d` (`d ≠ 0`) to binary64, to nearest with
ties to even, and give it the sign `neg`: 53 significant bits, exponent of the
last bit between -1074 (subnormals) and 971, overflow to infinity. -/
def round (neg : Bool) (n d : Nat) : F64 :=
  if n = 0 then zero neg
  else
    let k : Int := (floorLog2 n : Int) - (floorLog2 d : Int)
    let lg : Int := if d * 2 ^ k.toNat ≤ n * 2 ^ (-k).toNat then k else k - 1
    let e : Int := max (lg - 52) (-1074)
    let N := n * 2 ^ (-e).toNat
    let D := d * 2 ^ e.toNat
    let q := N / D
    let r := N % D
    let m := if D < 2 * r ∨ (2 * r = D ∧ q % 2 = 1) then q + 1 else q
    let m1 := if m = 2 ^ 53 then 2 ^ 52 else m
    let e1 := if m = 2 ^ 53 then e + 1 else e
    if m = 0 then zero neg else if 971 < e1 then .inf neg else .fin neg m1 e1

/-- Conversion `float64(i)` of an `int64`. -/
def ofInt64 (i : Int) : F64 := round (decide (i < 0)) i.natAbs 1

/-- Conversion `float64(n)` of a `uint64`. -/
def ofUInt64 (n : Nat) : F64 := round false n 1

/-- Division `x / y` of two `float64`. -/
def div : F64 → F64 → F64
  | .fin s1 m1 e1, .fin s2 m2 e2 =>
      if m2 = 0 then (if m1 = 0 then .nan else .inf (xor s1 s2))
      else round (xor s1 s2) (m1 * 2 ^ (e1 - e2).toNat) (m2 * 2 ^ (e2 - e1).toNat)
  | .fin s1 _ _, .inf s2 => zero (xor s1 s2)
  | .inf s1, .fin s2 _ _ => .inf (xor s1 s2)
  | _, _ => .nan

/-- Addition `x + y` of two `float64`. -/
def add : F64 → F64 → F64
  | .fin s1 m1 e1, .fin s2 m2 e2 =>
      let e : Int := min e1 e2
      let a : Int := if s1 then -((m1 * 2 ^ (e1 - e).toNat : Nat) : Int) else (m1 * 2 ^ (e1 - e).toNat : Nat)
      let b : Int := if s2 then -((m2 * 2 ^ (e2 - e).toNat : Nat) : Int) else (m2 * 2 ^ (e2 - e).toNat : Nat)
      if a + b = 0 then zero (s1 && s2)
      else round (decide (a + b < 0)) ((a + b).natAbs * 2 ^ e.toNat) (2 ^ (-e).toNat)
  | .fin _ _ _, .inf s2 => .inf s2
  | .inf s1, .fin _ _ _ => .inf s1
  | .inf s1, .inf s2 => if s1 = s2 then .inf s1 else .nan
  | _, _ => .nan

/-- Conversion `int64(x)`: truncation toward zero; for a value outside the
range of `int64` (Go leaves it to the implementation) the amd64 result. -/
def toInt64 : F64 → Int
  | .fin s m e =>
      let t : Int := ((m * 2 ^ e.toNat / 2 ^ (-e).toNat : Nat) : Int)
      let v : Int := if s then -t else t
      if -(2 : Int) ^ 63 ≤ v ∧ v < (2 : Int) ^ 63 then v else -(2 : Int) ^ 63
  | _ => -(2 : Int) ^ 63

/-- The comparison `x >= 0` of Go: false for NaN, true for both zeros. -/
def geZero : F64 → Bool
  | .nan => false
  | .inf s => !s
  | .fin s m _ => !s || m == 0

end F64

/-! ## time -/

/-- An instant (`time.Time`): nanoseconds since the Unix epoch. -/
abbrev Time := Int

/-- A `time.Duration`: an `int64` count of nanoseconds. -/
abbrev Duration := Int

def maxDuration : Int := 2 ^ 63 - 1

def minDuration : Int := -(2 ^ 63)

/-- The zero value of `time.Time`, January 1 of year 1, 00:00 UTC. -/
def zeroTime : Int := -62135596800 * 1000000000

/-- The method `t.Sub(u)`: the duration `t - u`, saturated to the range of a
`Duration`. -/
def Time.Sub (t u : Int) : Int :=
  if t - u < minDuration then minDuration
  else if maxDuration < t - u then maxDuration
  else t - u

/-- The method `t.Unix()`: whole seconds since the epoch. -/
def Time.Unix (t : Int) : Int := t / 1000000000

/-- The method `d.Seconds()` of the standard library:
`float64(d / Second) + float64(d % Second) / 1e9`. -/
def Duration.Seconds (d : Int) : F64 :=
  F64.add (F64.ofInt64 (Int.tdiv d 1000000000))
    (F64.div (F64.ofInt64 (Int.tmod d 1000000000)) (F64.ofInt64 1000000000))

/-! ## strings and maps -/

/-- The function `strings.HasPrefix(s, p)`. -/
def HasPrefix (s p : String) : Bool := p.data.isPrefixOf s.data

/-- Assignment `m[k] = v` on a map held as an association list. -/
def mapSet {β : Type} : List (String × β) → String → β → List (String × β)
  | [], k, v => [(k, v)]
  | (k1, v1) :: m, k, v => if k1 = k then (k, v) :: m else (k1, v1) :: mapSet m k v

/-- A counter snapshot, `map[string]uint64`. -/
abbrev Snapshot := List (String × Nat)

/-- A rate sample, `map[string]float64`. -/
abbrev RateMap := List (String × F64)

/-- The index expression `m[k]` on a `map[string]uint64`: 0 for an absent key
(and for a nil map). -/
def Snapshot.get (m : Snapshot) (k : String) : Nat := (m.lookup k).getD 0

/-! ## the package state -/

/-- The fields of `docker.Stats` that `UpdateStats` reads. -/
structure Stats where
  UsageInUsermode : Nat
  UsageInKernelmode : Nat
  TotalUsage : Nat
  Usage : Nat
  MaxUsage : Nat
  Rss : Nat
deriving DecidableEq, Repr

/-- What the calling goroutine observes of the fetch `gset.client.Stats(opt)`
it started, in the `select` of `UpdateStats`: either the stats channel yields
first (a snapshot, or `none` for the nil that a closed channel yields), or the
force timer fires first; in the latter case `takesDone` says whether the fetch
worker is receiving on the done channel. -/
inductive Fetch where
  | delivered (stats : Option Stats)
  | silent (takesDone : Bool)
deriving DecidableEq, Repr

/-- The process-wide settings `gset`; the client is represented by the outcome
of the fetch it runs for a container id. -/
structure Setting where
  timeout : Duration
  force : Duration
  vlanPrefix : String
  defaultVlan : String
  client : String → Fetch

def SetGlobalSetting (client : String → Fetch) (timeout force : Duration)
    (vlanPrefix defaultVlan : String) : Setting :=
  Setting.mk timeout force vlanPrefix defaultVlan client

/-- One call of the sink method `Send(data, endpoint, tag, timestamp, step)`. -/
structure SendCall where
  data : RateMap
  endpoint : String
  tag : String
  timestamp : Int
  step : Int
deriving DecidableEq, Repr

/-- The sink `Remote`, an interface of the package whose implementations are
outside this file: the calls it has received so far, and the error (`none` for
nil) it answers to a call. -/
structure Remote where
  calls : List SendCall
  reply : SendCall → Option String

def Remote.Send (r : Remote) (c : SendCall) : Remote × Option String :=
  (Remote.mk (r.calls ++ [c]) r.reply, r.reply c)

/-- The state of a channel value. -/
inductive ChanState where
  | nil
  | ready
  | closed
deriving DecidableEq, Repr

/-- The state of the `*os.File` handle `statFile`. -/
inductive FileState where
  | nil
  | opened
  | closed
deriving DecidableEq, Repr

/-- The method `f.Close()`; it returns an error, no panic, on a nil or an
already closed file. -/
def FileState.Close : FileState → FileState
  | .nil => .nil
  | .opened => .closed
  | .closed => .closed

/-- The struct `Metric` (declared elsewhere in the package), with the fields
this file uses. -/
structure Metric where
  Step : Duration
  Client : Remote
  Tag : String
  Endpoint : String
  Stop : ChanState
  statFile : FileState
  Last : Time
  Save : Snapshot

/-- How a call ends: it returns, it panics, or it blocks forever. -/
inductive Ctl (α : Type) where
  | ret (a : α)
  | panicked (msg : String)
  | blocked
deriving DecidableEq, Repr

def CreateMetric (step : Duration) (client : Remote) (tag endpoint : String) : Metric :=
  { Step := step
    Client := client
    Tag := tag
    Endpoint := endpoint
    Stop := ChanState.ready
    statFile := FileState.nil
    Last := zeroTime
    Save := [] }

/-- The method `Exit`: `defer self.statFile.Close(); self.Stop <- true;
close(self.Stop)`. `receiver` says whether some goroutine receives on `Stop`
(the channel is unbuffered). A send on a closed channel panics, and then the
`Close` that was deferred runs on the way out; a send on a nil channel, or on an
open one nobody receives from, blocks forever. -/
def Metric.Exit (self : Metric) (receiver : Bool) : Metric × Ctl Unit :=
  match self.Stop with
  | .nil => (self, .blocked)
  | .closed => ({ self with statFile := self.statFile.Close }, .panicked "send on closed channel")
  | .ready =>
      if receiver then
        ({ self with Stop := ChanState.closed, statFile := self.statFile.Close }, .ret ())
      else (self, .blocked)

/-- Modelled from the spec: `DeleteContainerMetricMapKey` is a function of the
package that this file calls and does not define; by the specification the
teardown "removes itself from any external registry", here the list of the
container ids being watched. -/
def DeleteContainerMetricMapKey (registry : List String) (cid : String) : List String :=
  registry.filter (fun c => c != cid)

/-- What `UpdateStats` meets outside the process state during one call. -/
structure Env where
  /-- result of `g.IsExists("/proc/<pid>/net/dev")` -/
  procExists : Bool
  /-- whether a goroutine is receiving on `self.Stop` -/
  stopReceiver : Bool
  /-- the method `getNetStats`, defined elsewhere in the package: it adds
  entries to `info` and may fail -/
  getNetStats : Snapshot → Snapshot × Option String
  /-- the container registry that `DeleteContainerMetricMapKey` edits -/
  registry : List String

/-- What `UpdateStats` leaves behind and returns. -/
structure UpdateOut where
  self : Metric
  registry : List String
  ctl : Ctl (Snapshot × Option String)

/-- The method `UpdateStats`. The fetch goroutine and the `select` are represented
by `g.client cid`; a return value `(info, err)` has `err = none` for nil. -/
def Metric.UpdateStats (g : Setting) (self : Metric) (env : Env) (cid : String) (_pid : Nat) :
    UpdateOut :=
  let info : Snapshot := []
  -- if ok, _ := g.IsExists(...); !ok { DeleteContainerMetricMapKey(cid); self.Exit() }
  let registry :=
    if env.procExists then env.registry else DeleteContainerMetricMapKey env.registry cid
  let teardown : Metric × Ctl Unit :=
    if env.procExists then (self, .ret ()) else self.Exit env.stopReceiver
  match teardown with
  | (self1, .panicked msg) => UpdateOut.mk self1 registry (.panicked msg)
  | (self1, .blocked) => UpdateOut.mk self1 registry .blocked
  | (self1, .ret _) =>
      -- go func() { gset.client.Stats(opt) }(); select { ... }
      match g.client cid with
      | .delivered none => UpdateOut.mk self1 registry (.ret (info, some "Get stats failed"))
      | .silent takesDone =>
          -- doneChan <- true
          if takesDone then UpdateOut.mk self1 registry (.ret (info, some "Get stats timeout"))
          else UpdateOut.mk self1 registry .blocked
      | .delivered (some stats) =>
          let info := mapSet info "cpu_user" stats.UsageInUsermode
          let info := mapSet info "cpu_system" stats.UsageInKernelmode
          let info := mapSet info "cpu_usage" stats.TotalUsage
          let info := mapSet info "mem_usage" stats.Usage
          let info := mapSet info "mem_max_usage" stats.MaxUsage
          let info := mapSet info "mem_rss" stats.Rss
          match env.getNetStats info with
          | (info1, some err) => UpdateOut.mk self1 registry (.ret (info1, some err))
          | (info1, none) => UpdateOut.mk self1 registry (.ret (info1, none))

/-- The method `SaveLast`. -/
def Metric.SaveLast (self : Metric) (info : Snapshot) : Metric :=
  { self with Save := info.foldl (fun save kd => mapSet save kd.1 kd.2) [] }

/-- The cases of the `switch` in the loop of `CalcRate`. -/
inductive Rule where
  | cpu
  | vlan
  | mem
  | none
deriving DecidableEq, Repr

/-- The case the `switch` of `CalcRate` selects for key `k` with counter `d`:
the first one, in source order, whose condition holds. -/
def ruleOf (g : Setting) (save : Snapshot) (k : String) (d : Nat) : Rule :=
  if HasPrefix k "cpu_" && decide (save.get k ≤ d) then Rule.cpu
  else if (HasPrefix k g.vlanPrefix || HasPrefix k g.defaultVlan) && decide (save.get k ≤ d) then
    Rule.vlan
  else if HasPrefix k "mem" then Rule.mem
  else Rule.none

/-- The body of the `for k, d := range info` loop of `CalcRate`, applied to the
rate map built so far. In the first two cases `d >= self.Save[k]` holds, so the
`uint64` subtraction `d - self.Save[k]` does not wrap. -/
def rateStep (g : Setting) (save : Snapshot) (nano_t second_t : F64) (rate : RateMap)
    (kd : String × Nat) : RateMap :=
  match ruleOf g save kd.1 kd.2 with
  | Rule.cpu => mapSet rate (kd.1 ++ "_rate") (F64.div (F64.ofUInt64 (kd.2 - save.get kd.1)) nano_t)
  | Rule.vlan =>
      mapSet rate (kd.1 ++ ".rate") (F64.div (F64.ofUInt64 (kd.2 - save.get kd.1)) second_t)
  | Rule.mem => mapSet rate kd.1 (F64.ofUInt64 kd.2)
  | Rule.none => rate

/-- The method `CalcRate`; `info` lists the entries of the map in the order the
loop visits them. It returns the rate map and the updated receiver. -/
def Metric.CalcRate (g : Setting) (self : Metric) (info : Snapshot) (now : Time) :
    RateMap × Metric :=
  let delta := Time.Sub now self.Last
  let nano_t := F64.ofInt64 delta
  let second_t := Duration.Seconds delta
  (info.foldl (rateStep g self.Save nano_t second_t) [], { self with Last := now })

/-- The method `Send`. -/
def Metric.Send (self : Metric) (rate : RateMap) : Metric × Option String :=
  let step := F64.toInt64 (Duration.Seconds self.Step)
  let timestamp := Time.Unix self.Last
  let r := self.Client.Send (SendCall.mk rate self.Endpoint self.Tag timestamp step)
  ({ self with Client := r.1 }, r.2)

/-! ## auxiliary definitions for the proofs -/

/-- A strictly positive value: `+Inf`, or finite, of sign `+` and non-zero. -/
def F64.Pos (x : F64) : Prop :=
  x = F64.inf false ∨ ∃ m e, m ≠ 0 ∧ -1074 ≤ e ∧ x = F64.fin false m e

/-- A value that is `+0` or strictly positive. -/
def F64.NonNeg (x : F64) : Prop := x = F64.zero false ∨ F64.Pos x

/-- The entry that the loop body of `CalcRate` writes for the key and counter
`kd`, if any: the output key and its value. -/
def emit (g : Setting) (save : Snapshot) (nano_t second_t : F64) (kd : String × Nat) :
    Option (String × F64) :=
  match ruleOf g save kd.1 kd.2 with
  | Rule.cpu => some (kd.1 ++ "_rate", F64.div (F64.ofUInt64 (kd.2 - save.get kd.1)) nano_t)
  | Rule.vlan => some (kd.1 ++ ".rate", F64.div (F64.ofUInt64 (kd.2 - save.get kd.1)) second_t)
  | Rule.mem => some (kd.1, F64.ofUInt64 kd.2)
  | Rule.none => none

/-- The state after the calls `UpdateStats`, `CalcRate(current, now)` and `Send` of
the rate map, in this order: the part of a sample cycle that this file holds. -/
def afterCycle (g : Setting) (self : Metric) (env : Env) (cid : String) (pid : Nat)
    (now : Time) (current : Snapshot) : Metric :=
  (((self.UpdateStats g env cid pid).self.CalcRate g current now).2.Send
    ((self.UpdateStats g env cid pid).self.CalcRate g current now).1).1

/-! ## concrete inputs used by the examples -/

/-- Settings with VLAN prefix `eth` and default VLAN key `eth0`; the fetch never
delivers and the worker takes the done signal. -/
def ethSetting : Setting :=
  SetGlobalSetting (fun _ => Fetch.silent true) 3 5 "eth" "eth0"

/-- Settings whose VLAN prefix and default VLAN key are the empty string, the
zero value of `Setting`. -/
def zeroSetting : Setting :=
  SetGlobalSetting (fun _ => Fetch.silent true) 3 5 "" ""

/-- Settings of `ethSetting` with a client whose worker never takes the done
signal. -/
def deafSetting : Setting :=
  SetGlobalSetting (fun _ => Fetch.silent false) 3 5 "eth" "eth0"

/-- Settings of `ethSetting` with a client whose stats channel yields nil. -/
def nilSetting : Setting :=
  SetGlobalSetting (fun _ => Fetch.delivered none) 3 5 "eth" "eth0"

/-- A sink that accepts every call. -/
def sinkOk : Remote := Remote.mk [] (fun _ => none)

/-- A sink that rejects every call. -/
def sinkDown : Remote := Remote.mk [] (fun _ => some "connection refused")

/-- Settings of `ethSetting` with a client that delivers the given stats. -/
def liveSetting (stats : Stats) : Setting :=
  SetGlobalSetting (fun _ => Fetch.delivered (some stats)) 3 5 "eth" "eth0"

/-- A reachable container whose `getNetStats` adds nothing and succeeds. -/
def quietEnv : Env :=
  { procExists := true
    stopReceiver := true
    getNetStats := fun info => (info, none)
    registry := ["c0ffee"] }

/-- The stats of a container that has used 5000 ns of CPU. -/
def statsAt1 : Stats := Stats.mk 10 20 5000 300 400 200

/-- The snapshot `UpdateStats` extracts from `statsAt1`. -/
def snapshotAt1 : Snapshot :=
  [("cpu_user", 10), ("cpu_system", 20), ("cpu_usage", 5000), ("mem_usage", 300),
    ("mem_max_usage", 400), ("mem_rss", 200)]

/-- A metric with a 30 s step, last sampled at the epoch with the given
snapshot. -/
def metricAt0 (client : Remote) (save : Snapshot) : Metric :=
  { CreateMetric 30000000000 client "tag" "host" with Last := 0, Save := save }

/-! # Properties

### float64: signs, exact conversions -/

theorem log2Fuel_spec : ∀ (f n : Nat), n ≠ 0 → n < 2 ^ f →
    2 ^ log2Fuel f n ≤ n ∧ n < 2 ^ (log2Fuel f n + 1)
  | 0, n, h0, h => by simp at h; omega
  | f + 1, n, h0, h => by
      unfold log2Fuel
      split
      · constructor <;> simp <;> omega
      · have ih := log2Fuel_spec f (n / 2) (by omega) (by rw [pow_succ] at h; omega)
        obtain ⟨a, b⟩ := ih
        constructor
        · rw [pow_succ]; omega
        · rw [pow_succ]; omega

theorem floorLog2_spec (n : Nat) (h0 : n ≠ 0) :
    2 ^ floorLog2 n ≤ n ∧ n < 2 ^ (floorLog2 n + 1) :=
  log2Fuel_spec n n h0 (Nat.lt_two_pow n)

theorem scaled_le_iff (n d : Nat) (e : Int) :
    d * 2 ^ e.toNat ≤ n * 2 ^ (-e).toNat ↔ (d : ℚ) * (2 : ℚ) ^ e ≤ (n : ℚ) := by
  rcases le_total 0 e with h | h
  · obtain ⟨j, rfl⟩ := Int.eq_ofNat_of_zero_le h
    have : (-(j : Int)).toNat = 0 := by simp
    rw [this]
    simp only [Int.toNat_ofNat, pow_zero, mul_one, zpow_natCast]
    exact_mod_cast Iff.rfl
  · obtain ⟨j, hj⟩ := Int.eq_ofNat_of_zero_le (neg_nonneg.mpr h)
    have he : e = -(j : Int) := by omega
    subst he
    have : (-(j : Int)).toNat = 0 := by simp
    rw [this]
    simp only [neg_neg, Int.toNat_ofNat, pow_zero, mul_one, zpow_neg, zpow_natCast]
    have hp : (0 : ℚ) < (2 : ℚ) ^ j := by positivity
    rw [← div_eq_mul_inv, div_le_iff₀ hp]
    exact_mod_cast Iff.rfl

/-- The exponent `lg` chosen by `F64.round` does not exceed the binary logarithm
of `n / d`. -/
theorem lg_le (n d : Nat) (hn : n ≠ 0) (hd : d ≠ 0) (k lg : Int)
    (hk : k = (floorLog2 n : Int) - (floorLog2 d : Int))
    (hlg : lg = if d * 2 ^ k.toNat ≤ n * 2 ^ (-k).toNat then k else k - 1) :
    (d : ℚ) * (2 : ℚ) ^ lg ≤ (n : ℚ) := by
  by_cases h : d * 2 ^ k.toNat ≤ n * 2 ^ (-k).toNat
  · rw [hlg, if_pos h]; exact (scaled_le_iff n d k).mp h
  · rw [hlg, if_neg h]
    obtain ⟨ha, -⟩ := floorLog2_spec n hn
    obtain ⟨-, hb⟩ := floorLog2_spec d hd
    have ha1 : ((2 : ℚ) ^ (floorLog2 n : Int)) ≤ (n : ℚ) := by
      rw [zpow_natCast]; exact_mod_cast ha
    have hb1 : (d : ℚ) ≤ (2 : ℚ) ^ ((floorLog2 d : Int) + 1) := by
      have : (d : ℚ) ≤ (2 : ℚ) ^ (floorLog2 d + 1) := by exact_mod_cast hb.le
      rw [← zpow_natCast] at this
      simpa using this
    have hpos : (0 : ℚ) ≤ (2 : ℚ) ^ (k - 1) := by positivity
    calc (d : ℚ) * (2 : ℚ) ^ (k - 1)
        ≤ (2 : ℚ) ^ ((floorLog2 d : Int) + 1) * (2 : ℚ) ^ (k - 1) :=
          mul_le_mul_of_nonneg_right hb1 hpos
      _ = (2 : ℚ) ^ (floorLog2 n : Int) := by
          rw [← zpow_add₀ (by norm_num : (2 : ℚ) ≠ 0)]
          congr 1; omega
      _ ≤ (n : ℚ) := ha1

/-- The shape of a rounded value: a zero, an infinity or a finite non-zero value,
of the sign asked for. -/
theorem round_shape (neg : Bool) (n d : Nat) :
    F64.round neg n d = F64.zero neg ∨ F64.round neg n d = F64.inf neg ∨
      ∃ m e, m ≠ 0 ∧ -1074 ≤ e ∧ F64.round neg n d = F64.fin neg m e := by
  unfold F64.round
  by_cases hn : n = 0
  · simp [hn]
  · simp only [hn, if_false]
    split_ifs with h1 h2 h3 h4
    all_goals first
      | (left; rfl)
      | (right; left; rfl)
      | (right; right; refine ⟨_, _, ?_, ?_, rfl⟩ <;> first | omega | simp)

/-- A quotient of at least `2^-j`, with `j ≤ 1074`, does not round to zero. -/
theorem round_ne_zero (neg : Bool) (n d : Nat) (hn : n ≠ 0) (hd : d ≠ 0) (j : Nat)
    (hj : j ≤ 1074) (h : d ≤ n * 2 ^ j) : F64.round neg n d ≠ F64.zero neg := by
  unfold F64.round
  simp only [hn, if_false]
  set k : Int := (floorLog2 n : Int) - (floorLog2 d : Int) with hk
  set lg : Int := (if d * 2 ^ k.toNat ≤ n * 2 ^ (-k).toNat then k else k - 1) with hlg
  set e : Int := max (lg - 52) (-1074) with he
  have hle : (d : ℚ) * (2 : ℚ) ^ e ≤ (n : ℚ) := by
    rcases max_cases (lg - 52) (-1074) with ⟨h1, -⟩ | ⟨h1, -⟩
    · rw [he, h1]
      have h2 := lg_le n d hn hd k lg hk hlg
      have h3 : (2 : ℚ) ^ (lg - 52) ≤ (2 : ℚ) ^ lg :=
        zpow_le_zpow_right₀ (by norm_num) (by omega)
      calc (d : ℚ) * (2 : ℚ) ^ (lg - 52) ≤ (d : ℚ) * (2 : ℚ) ^ lg :=
            mul_le_mul_of_nonneg_left h3 (by positivity)
        _ ≤ (n : ℚ) := h2
    · rw [he, h1]
      have h4 : (d : ℚ) ≤ (n : ℚ) * (2 : ℚ) ^ (j : Int) := by
        rw [zpow_natCast]; exact_mod_cast h
      have h5 : (2 : ℚ) ^ (-1074 : Int) * (2 : ℚ) ^ (j : Int) ≤ 1 := by
        rw [← zpow_add₀ (by norm_num : (2 : ℚ) ≠ 0)]
        exact zpow_le_one_of_nonpos₀ (by norm_num) (by omega)
      have h6 : (0 : ℚ) ≤ (n : ℚ) := Nat.cast_nonneg n
      calc (d : ℚ) * (2 : ℚ) ^ (-1074 : Int)
          ≤ (n : ℚ) * (2 : ℚ) ^ (j : Int) * (2 : ℚ) ^ (-1074 : Int) :=
            mul_le_mul_of_nonneg_right h4 (by positivity)
        _ = (n : ℚ) * ((2 : ℚ) ^ (-1074 : Int) * (2 : ℚ) ^ (j : Int)) := by ring
        _ ≤ (n : ℚ) * 1 := mul_le_mul_of_nonneg_left h5 h6
        _ = (n : ℚ) := mul_one _
  have hDN : d * 2 ^ e.toNat ≤ n * 2 ^ (-e).toNat := (scaled_le_iff n d e).mpr hle
  have hD : 0 < d * 2 ^ e.toNat := by positivity
  have hq : 0 < n * 2 ^ (-e).toNat / (d * 2 ^ e.toNat) := Nat.div_pos hDN hD
  clear h hle hDN hD
  split_ifs <;> simp [F64.zero] <;> first | contradiction | omega

theorem round_gtZero (n d : Nat) (hn : n ≠ 0) (hd : d ≠ 0) (j : Nat) (hj : j ≤ 1074)
    (h : d ≤ n * 2 ^ j) :
    F64.round false n d = F64.inf false ∨
      ∃ m e, m ≠ 0 ∧ -1074 ≤ e ∧ F64.round false n d = F64.fin false m e := by
  rcases round_shape false n d with h1 | h1 | h1
  · exact absurd h1 (round_ne_zero false n d hn hd j hj h)
  · exact Or.inl h1
  · exact Or.inr h1

theorem geZero_of_nonNeg {x : F64} (h : x.NonNeg) : x.geZero = true := by
  rcases h with h | h | ⟨m, e, -, -, h⟩ <;> subst h <;> simp [F64.geZero, F64.zero]

theorem round_nonNeg (n d : Nat) : (F64.round false n d).NonNeg := by
  rcases round_shape false n d with h | h | h
  · exact Or.inl h
  · exact Or.inr (Or.inl h)
  · exact Or.inr (Or.inr h)

theorem floorLog2_one : floorLog2 1 = 0 := by decide

theorem floorLog2_lt (n j : Nat) (h : n < 2 ^ j) : floorLog2 n < j ∨ n = 0 := by
  by_cases h0 : n = 0
  · exact Or.inr h0
  · left
    obtain ⟨ha, -⟩ := floorLog2_spec n h0
    exact (Nat.pow_lt_pow_iff_right (by norm_num)).mp (lt_of_le_of_lt ha h)

/-- A quotient below `2^1023` does not round to an infinity. -/
theorem round_ne_inf (neg : Bool) (n d : Nat) (h : floorLog2 n ≤ 1022) :
    F64.round neg n d ≠ F64.inf neg := by
  unfold F64.round
  by_cases hn : n = 0
  · simp [hn, F64.zero]
  · simp only [hn, if_false]
    set k : Int := (floorLog2 n : Int) - (floorLog2 d : Int) with hk
    set lg : Int := (if d * 2 ^ k.toNat ≤ n * 2 ^ (-k).toNat then k else k - 1) with hlg
    have hlgk : lg ≤ 1022 := by
      rw [hlg]; split_ifs <;> omega
    have he : max (lg - 52) (-1074) ≤ 970 := max_le (by omega) (by norm_num)
    split_ifs <;> simp [F64.zero] <;> omega

/-- The last-bit exponent of a rounded value is within 53 of the difference of
the logarithms of numerator and denominator. -/
theorem round_exp_ge (neg s : Bool) (n d m : Nat) (e : Int) (hm : m ≠ 0)
    (h : F64.round neg n d = F64.fin s m e) :
    (floorLog2 n : Int) - (floorLog2 d : Int) - 53 ≤ e := by
  unfold F64.round at h
  by_cases hn : n = 0
  · simp [hn, F64.zero] at h; omega
  · simp only [hn, if_false] at h
    set k : Int := (floorLog2 n : Int) - (floorLog2 d : Int) with hk
    set lg : Int := (if d * 2 ^ k.toNat ≤ n * 2 ^ (-k).toNat then k else k - 1) with hlg
    have hlgk : k - 1 ≤ lg := by
      rw [hlg]; split_ifs <;> omega
    have he : lg - 52 ≤ max (lg - 52) (-1074) := le_max_left _ _
    split_ifs at h <;> simp [F64.zero] at h <;> omega

theorem ofUInt64_nonNeg (n : Nat) : (F64.ofUInt64 n).NonNeg := round_nonNeg n 1

theorem ofUInt64_ne_inf (n : Nat) (h : n < 2 ^ 64) : F64.ofUInt64 n ≠ F64.inf false := by
  apply round_ne_inf
  rcases floorLog2_lt n 64 h with h1 | h1
  · omega
  · subst h1; decide

theorem ofUInt64_pos (n : Nat) (h : n ≠ 0) : (F64.ofUInt64 n).Pos :=
  round_gtZero n 1 h one_ne_zero 0 (by norm_num) (by rw [pow_zero, mul_one]; omega)

theorem ofInt64_pos (i : Int) (h : 0 < i) : (F64.ofInt64 i).Pos := by
  unfold F64.ofInt64
  have h1 : decide (i < 0) = false := by simp; omega
  rw [h1]
  exact round_gtZero i.natAbs 1 (by omega) one_ne_zero 0 (by norm_num)
    (by rw [pow_zero, mul_one]; omega)

theorem ofInt64_nonNeg (i : Int) (h : 0 ≤ i) : (F64.ofInt64 i).NonNeg := by
  unfold F64.ofInt64
  have h1 : decide (i < 0) = false := by simp; omega
  rw [h1]
  exact round_nonNeg _ _

/-- Dividing a finite value that is `+0` or positive by a positive one gives a
value that is `+0` or positive: not NaN, not negative. -/
theorem div_nonNeg (x y : F64) (hx : x.NonNeg) (hfin : x ≠ F64.inf false) (hy : y.Pos) :
    (F64.div x y).NonNeg := by
  have hx1 : ∃ m e, x = F64.fin false m e := by
    rcases hx with h | h | ⟨m, e, -, -, h⟩
    · exact ⟨0, 0, h⟩
    · exact absurd h hfin
    · exact ⟨m, e, h⟩
  obtain ⟨m1, e1, rfl⟩ := hx1
  rcases hy with h | ⟨m2, e2, hm2, -, h⟩
  · subst h; left; simp [F64.div]
  · subst h
    simp only [F64.div, hm2, if_false, Bool.xor_false]
    exact round_nonNeg _ _

theorem nonNeg_cases {x : F64} (h : x.NonNeg) :
    x = F64.inf false ∨ ∃ m e, -1074 ≤ e ∧ x = F64.fin false m e := by
  rcases h with h | h | ⟨m, e, -, he, h⟩
  · exact Or.inr ⟨0, 0, by norm_num, h⟩
  · exact Or.inl h
  · exact Or.inr ⟨m, e, he, h⟩

theorem pos_fin_ne_zero {m : Nat} {e : Int} (h : (F64.fin false m e).Pos) : m ≠ 0 := by
  rcases h with h | ⟨m1, e1, hm, -, h⟩
  · cases h
  · cases h; exact hm

/-- The sum of two values that are `+0` or positive, one of them positive, is
positive. -/
theorem add_pos_of_nonNeg (a b : F64) (ha : a.NonNeg) (hb : b.NonNeg) (h : a.Pos ∨ b.Pos) :
    (F64.add a b).Pos := by
  rcases nonNeg_cases ha with ha1 | ⟨m1, e1, he1, ha1⟩ <;>
    rcases nonNeg_cases hb with hb1 | ⟨m2, e2, he2, hb1⟩ <;> subst ha1 <;> subst hb1
  · left; simp [F64.add]
  · left; simp [F64.add]
  · left; simp [F64.add]
  · have hm : m1 ≠ 0 ∨ m2 ≠ 0 := h.imp pos_fin_ne_zero pos_fin_ne_zero
    simp only [F64.add, Bool.false_eq_true, if_false]
    set e : Int := min e1 e2 with he
    have hee : -1074 ≤ e := le_min he1 he2
    set A : Nat := m1 * 2 ^ (e1 - e).toNat with hA
    set B : Nat := m2 * 2 ^ (e2 - e).toNat with hB
    have hAB : 0 < A + B := by
      rcases hm with h1 | h1
      · have : 0 < A := Nat.mul_pos (Nat.pos_of_ne_zero h1) (Nat.two_pow_pos _)
        omega
      · have : 0 < B := Nat.mul_pos (Nat.pos_of_ne_zero h1) (Nat.two_pow_pos _)
        omega
    have hs : ((A : Int) + (B : Int)) ≠ 0 := by omega
    have hneg : decide ((A : Int) + (B : Int) < 0) = false := by simp; omega
    rw [if_neg hs, hneg]
    have hn : ((A : Int) + (B : Int)).natAbs * 2 ^ e.toNat ≠ 0 :=
      Nat.mul_ne_zero (by omega) (Nat.two_pow_pos _).ne'
    exact round_gtZero _ _ hn (Nat.two_pow_pos _).ne' (-e).toNat (by omega)
      (Nat.le_mul_of_pos_left _ (Nat.pos_of_ne_zero hn))

theorem ofInt64_billion : F64.ofInt64 1000000000 = F64.fin false 8388608000000000 (-23) := by
  decide

/-- The float64 seconds of a positive duration are positive. -/
theorem Seconds_pos (d : Int) (hd : 0 < d) : (Duration.Seconds d).Pos := by
  unfold Duration.Seconds
  have hsec : 0 ≤ Int.tdiv d 1000000000 := Int.tdiv_nonneg hd.le (by norm_num)
  have hnsec : 0 ≤ Int.tmod d 1000000000 := Int.tmod_nonneg _ hd.le
  have hsum := Int.tmod_add_tdiv d 1000000000
  have hb : (F64.div (F64.ofInt64 (Int.tmod d 1000000000)) (F64.ofInt64 1000000000)).NonNeg := by
    rw [ofInt64_billion]
    rcases nonNeg_cases (ofInt64_nonNeg _ hnsec) with h1 | ⟨m, e, -, h1⟩
    · rw [h1]; right; left; simp [F64.div]
    · rw [h1]; simp only [F64.div]; norm_num; exact round_nonNeg _ _
  apply add_pos_of_nonNeg _ _ (ofInt64_nonNeg _ hsec) hb
  by_cases h0 : Int.tdiv d 1000000000 = 0
  · right
    have hn : 0 < Int.tmod d 1000000000 := by rw [h0] at hsum; omega
    rw [ofInt64_billion]
    have hp := ofInt64_pos _ hn
    rcases hp with h1 | ⟨m, e, hm, -, h1⟩
    · rw [h1]; left; simp [F64.div]
    · have hexp := round_exp_ge _ _ _ _ m e hm h1
      rw [floorLog2_one] at hexp
      rw [h1]
      simp only [F64.div]
      norm_num
      have hn1 : m * 2 ^ (e + 23).toNat ≠ 0 :=
        Nat.mul_ne_zero hm (Nat.two_pow_pos _).ne'
      refine round_gtZero _ _ hn1 (Nat.mul_ne_zero (by norm_num) (Nat.two_pow_pos _).ne') 83
        (by norm_num) ?_
      calc 8388608000000000 * 2 ^ (-23 - e).toNat
          ≤ 2 ^ 53 * 2 ^ 30 :=
            Nat.mul_le_mul (by norm_num) (Nat.pow_le_pow_right (by norm_num) (by omega))
        _ = 2 ^ 83 := by norm_num
        _ ≤ (m * 2 ^ (e + 23).toNat) * 2 ^ 83 :=
            Nat.le_mul_of_pos_left _ (Nat.pos_of_ne_zero hn1)
  · left
    exact ofInt64_pos _ (by omega)

/-- The exponent `lg` chosen by `F64.round` is the floor of the binary logarithm
of `n / d`: this is the upper bound. -/
theorem lt_lg (n d : Nat) (hn : n ≠ 0) (hd : d ≠ 0) (k lg : Int)
    (hk : k = (floorLog2 n : Int) - (floorLog2 d : Int))
    (hlg : lg = if d * 2 ^ k.toNat ≤ n * 2 ^ (-k).toNat then k else k - 1) :
    (n : ℚ) < (d : ℚ) * (2 : ℚ) ^ (lg + 1) := by
  by_cases h : d * 2 ^ k.toNat ≤ n * 2 ^ (-k).toNat
  · rw [hlg, if_pos h]
    obtain ⟨-, ha⟩ := floorLog2_spec n hn
    obtain ⟨hb, -⟩ := floorLog2_spec d hd
    have ha1 : (n : ℚ) < (2 : ℚ) ^ ((floorLog2 n : Int) + 1) := by
      have : (n : ℚ) < (2 : ℚ) ^ (floorLog2 n + 1) := by exact_mod_cast ha
      rw [← zpow_natCast] at this
      simpa using this
    have hb1 : (2 : ℚ) ^ (floorLog2 d : Int) ≤ (d : ℚ) := by
      rw [zpow_natCast]; exact_mod_cast hb
    have hpos : (0 : ℚ) ≤ (2 : ℚ) ^ (k + 1) := by positivity
    calc (n : ℚ) < (2 : ℚ) ^ ((floorLog2 n : Int) + 1) := ha1
      _ = (2 : ℚ) ^ (floorLog2 d : Int) * (2 : ℚ) ^ (k + 1) := by
          rw [← zpow_add₀ (by norm_num : (2 : ℚ) ≠ 0)]
          congr 1; omega
      _ ≤ (d : ℚ) * (2 : ℚ) ^ (k + 1) := mul_le_mul_of_nonneg_right hb1 hpos
  · rw [hlg, if_neg h]
    have h1 : ¬ (d : ℚ) * (2 : ℚ) ^ k ≤ (n : ℚ) := fun h2 => h ((scaled_le_iff n d k).mpr h2)
    have h3 : k - 1 + 1 = k := by omega
    rw [h3]
    exact lt_of_not_le h1

/-- A quotient that is a binary64 value rounds to itself: if `n / d = m * 2^e`
with `m` of 53 bits and `e` in range, `F64.round` returns `m * 2^e`. -/
theorem round_exact (sg : Bool) (n d m : Nat) (e : Int) (hd : d ≠ 0) (hm1 : 2 ^ 52 ≤ m)
    (hm2 : m < 2 ^ 53) (he1 : -1074 ≤ e) (he2 : e ≤ 971)
    (hval : n * 2 ^ (-e).toNat = m * (d * 2 ^ e.toNat)) :
    F64.round sg n d = F64.fin sg m e := by
  have hm0 : m ≠ 0 := by omega
  have hD : 0 < d * 2 ^ e.toNat := Nat.mul_pos (Nat.pos_of_ne_zero hd) (Nat.two_pow_pos _)
  have hn : n ≠ 0 := by
    intro h0
    rw [h0, zero_mul] at hval
    exact absurd hval.symm (Nat.mul_ne_zero hm0 hD.ne')
  have hdq : (0 : ℚ) < (d : ℚ) := by exact_mod_cast Nat.pos_of_ne_zero hd
  -- the value of the quotient, in ℚ
  have hle : (d : ℚ) * (2 : ℚ) ^ (e + 52) ≤ (n : ℚ) := by
    have h1 : (2 ^ 52 * d) * 2 ^ e.toNat ≤ n * 2 ^ (-e).toNat := by
      rw [hval]
      calc (2 ^ 52 * d) * 2 ^ e.toNat = 2 ^ 52 * (d * 2 ^ e.toNat) := by ring
        _ ≤ m * (d * 2 ^ e.toNat) := Nat.mul_le_mul_right _ hm1
    have h2 := (scaled_le_iff n (2 ^ 52 * d) e).mp h1
    rw [zpow_add₀ (by norm_num : (2 : ℚ) ≠ 0)]
    push_cast at h2
    calc (d : ℚ) * ((2 : ℚ) ^ e * (2 : ℚ) ^ (52 : Int)) = 2 ^ 52 * (d : ℚ) * (2 : ℚ) ^ e := by
          rw [zpow_ofNat]; ring
      _ ≤ (n : ℚ) := h2
  have hlt : (n : ℚ) < (d : ℚ) * (2 : ℚ) ^ (e + 53) := by
    have h1 : ¬ (2 ^ 53 * d) * 2 ^ e.toNat ≤ n * 2 ^ (-e).toNat := by
      rw [hval, not_le]
      calc m * (d * 2 ^ e.toNat) < 2 ^ 53 * (d * 2 ^ e.toNat) :=
            Nat.mul_lt_mul_of_pos_right hm2 hD
        _ = (2 ^ 53 * d) * 2 ^ e.toNat := by ring
    have h2 := lt_of_not_le (fun h => h1 ((scaled_le_iff n (2 ^ 53 * d) e).mpr h))
    rw [zpow_add₀ (by norm_num : (2 : ℚ) ≠ 0)]
    push_cast at h2
    calc (n : ℚ) < 2 ^ 53 * (d : ℚ) * (2 : ℚ) ^ e := h2
      _ = (d : ℚ) * ((2 : ℚ) ^ e * (2 : ℚ) ^ (53 : Int)) := by rw [zpow_ofNat]; ring
  unfold F64.round
  simp only [hn, if_false]
  set k : Int := (floorLog2 n : Int) - (floorLog2 d : Int) with hk
  set lg : Int := (if d * 2 ^ k.toNat ≤ n * 2 ^ (-k).toNat then k else k - 1) with hlg
  have hlo := lg_le n d hn hd k lg hk hlg
  have hhi := lt_lg n d hn hd k lg hk hlg
  have hlge : lg = e + 52 := by
    have h1 : (2 : ℚ) ^ lg < (2 : ℚ) ^ (e + 53) := by
      have := lt_of_le_of_lt hlo hlt
      exact lt_of_mul_lt_mul_left this hdq.le
    have h2 : (2 : ℚ) ^ (e + 52) < (2 : ℚ) ^ (lg + 1) := by
      have := lt_of_le_of_lt hle hhi
      exact lt_of_mul_lt_mul_left this hdq.le
    have h3 := (zpow_lt_zpow_iff_right₀ (by norm_num : (1 : ℚ) < 2)).mp h1
    have h4 := (zpow_lt_zpow_iff_right₀ (by norm_num : (1 : ℚ) < 2)).mp h2
    omega
  have hmax : max (lg - 52) (-1074) = e := by
    rw [hlge, max_eq_left (by omega)]; omega
  rw [hmax, hval, Nat.mul_div_cancel _ hD, Nat.mul_mod_left]
  have h53 : m ≠ 2 ^ 53 := by omega
  have hnot : ¬ (d * 2 ^ e.toNat < 2 * 0 ∨ 2 * 0 = d * 2 ^ e.toNat ∧ m % 2 = 1) := by
    intro h
    rcases h with h | ⟨h, -⟩ <;> omega
  simp only [if_neg hnot, if_neg h53, if_neg hm0, if_neg (not_lt.mpr he2)]

/-- The conversion of a non-zero integer of at most 53 bits is exact: the
result is the integer itself, with the mantissa shifted to 53 bits. -/
theorem round_int_exact (sg : Bool) (n : Nat) (hn : n ≠ 0) (h53 : n < 2 ^ 53) :
    floorLog2 n ≤ 52 ∧
      F64.round sg n 1 =
        F64.fin sg (n * 2 ^ (52 - floorLog2 n)) ((floorLog2 n : Int) - 52) := by
  obtain ⟨hlo, hhi⟩ := floorLog2_spec n hn
  have hL : floorLog2 n ≤ 52 := by
    have := (Nat.pow_lt_pow_iff_right (by norm_num : 1 < 2)).mp (lt_of_le_of_lt hlo h53)
    omega
  refine ⟨hL, ?_⟩
  have e1 : (-((floorLog2 n : Int) - 52)).toNat = 52 - floorLog2 n := by omega
  have e2 : ((floorLog2 n : Int) - 52).toNat = 0 := by omega
  have hsplit : 2 ^ 52 = 2 ^ floorLog2 n * 2 ^ (52 - floorLog2 n) := by
    rw [← pow_add]; congr 1; omega
  have hsplit1 : 2 ^ 53 = 2 ^ (floorLog2 n + 1) * 2 ^ (52 - floorLog2 n) := by
    rw [← pow_add]; congr 1; omega
  apply round_exact sg n 1 _ _ one_ne_zero
  · rw [hsplit]; exact Nat.mul_le_mul_right _ hlo
  · rw [hsplit1]; exact Nat.mul_lt_mul_of_pos_right hhi (Nat.two_pow_pos _)
  · omega
  · omega
  · rw [e1, e2]; simp

/-- Adding `+0` to a normal value gives the value back. -/
theorem add_zero_exact (sg : Bool) (m : Nat) (e : Int) (hm1 : 2 ^ 52 ≤ m) (hm2 : m < 2 ^ 53)
    (he1 : -1074 ≤ e) (he2 : e ≤ 971) :
    F64.add (F64.fin sg m e) (F64.zero false) = F64.fin sg m e := by
  have hmpos : 0 < m * 2 ^ (e - min e 0).toNat :=
    Nat.mul_pos (by omega) (Nat.two_pow_pos _)
  simp only [F64.add, F64.zero, zero_mul, Nat.cast_zero, Bool.false_eq_true, if_false, add_zero]
  cases sg
  · simp only [Bool.false_eq_true, if_false]
    have hne : ((m * 2 ^ (e - min e 0).toNat : Nat) : Int) ≠ 0 := by omega
    have hdec : decide (((m * 2 ^ (e - min e 0).toNat : Nat) : Int) < 0) = false := by
      simp
    rw [if_neg hne, hdec, Int.natAbs_ofNat]
    apply round_exact false _ _ m e (Nat.two_pow_pos _).ne' hm1 hm2 he1 he2
    rcases le_total e 0 with h | h
    · rw [min_eq_left h]
      have e1 : (e - e).toNat = 0 := by omega
      have e2 : e.toNat = 0 := by omega
      rw [e1, e2]; ring
    · rw [min_eq_right h]
      have e1 : (-(0 : Int)).toNat = 0 := by simp
      have e2 : (-e).toNat = 0 := by omega
      have e3 : (e - 0).toNat = e.toNat := by simp
      have e4 : (0 : Int).toNat = 0 := rfl
      rw [e1, e2, e3, e4]; ring
  · simp only [if_true]
    have hne : -((m * 2 ^ (e - min e 0).toNat : Nat) : Int) ≠ 0 := by omega
    have hdec : decide (-((m * 2 ^ (e - min e 0).toNat : Nat) : Int) < 0) = true := by
      simp; omega
    rw [if_neg hne, hdec, Int.natAbs_neg, Int.natAbs_ofNat]
    apply round_exact true _ _ m e (Nat.two_pow_pos _).ne' hm1 hm2 he1 he2
    rcases le_total e 0 with h | h
    · rw [min_eq_left h]
      have e1 : (e - e).toNat = 0 := by omega
      have e2 : e.toNat = 0 := by omega
      rw [e1, e2]; ring
    · rw [min_eq_right h]
      have e1 : (-(0 : Int)).toNat = 0 := by simp
      have e2 : (-e).toNat = 0 := by omega
      have e3 : (e - 0).toNat = e.toNat := by simp
      have e4 : (0 : Int).toNat = 0 := rfl
      rw [e1, e2, e3, e4]; ring

theorem div_zero_billion :
    F64.div (F64.ofInt64 0) (F64.ofInt64 1000000000) = F64.zero false := by decide

theorem Seconds_zero : F64.toInt64 (Duration.Seconds 0) = 0 := by decide

/-- The float64 seconds of a duration of `s` whole seconds, truncated to an
`int64`, are `s`. -/
theorem Seconds_whole (s : Int) (hlo : -(2 : Int) ^ 53 < s) (hhi : s < (2 : Int) ^ 53) :
    F64.toInt64 (Duration.Seconds (s * 1000000000)) = s := by
  by_cases h0 : s = 0
  · subst h0; exact Seconds_zero
  · unfold Duration.Seconds
    rw [Int.mul_tdiv_cancel _ (by norm_num), Int.mul_tmod_left, div_zero_billion]
    have hn : s.natAbs ≠ 0 := by omega
    have h53 : s.natAbs < 2 ^ 53 := by omega
    obtain ⟨hL, hr⟩ := round_int_exact (decide (s < 0)) s.natAbs hn h53
    obtain ⟨hlo1, hhi1⟩ := floorLog2_spec s.natAbs hn
    have hsplit : 2 ^ 52 = 2 ^ floorLog2 s.natAbs * 2 ^ (52 - floorLog2 s.natAbs) := by
      rw [← pow_add]; congr 1; omega
    have hsplit1 : 2 ^ 53 = 2 ^ (floorLog2 s.natAbs + 1) * 2 ^ (52 - floorLog2 s.natAbs) := by
      rw [← pow_add]; congr 1; omega
    unfold F64.ofInt64
    rw [hr, add_zero_exact _ _ _ (by rw [hsplit]; exact Nat.mul_le_mul_right _ hlo1)
      (by rw [hsplit1]; exact Nat.mul_lt_mul_of_pos_right hhi1 (Nat.two_pow_pos _))
      (by omega) (by omega)]
    have e1 : (-((floorLog2 s.natAbs : Int) - 52)).toNat = 52 - floorLog2 s.natAbs := by omega
    have e2 : ((floorLog2 s.natAbs : Int) - 52).toNat = 0 := by omega
    simp only [F64.toInt64, e1, e2, pow_zero, mul_one,
      Nat.mul_div_cancel _ (Nat.two_pow_pos (52 - floorLog2 s.natAbs))]
    by_cases hs : s < 0
    · have : (decide (s < 0)) = true := by simpa using hs
      rw [this]
      simp only [if_true]
      rw [if_pos (by constructor <;> omega)]
      omega
    · have : (decide (s < 0)) = false := by simpa using hs
      rw [this]
      simp only [Bool.false_eq_true, if_false]
      rw [if_pos (by constructor <;> omega)]
      omega

/-- The conversion `float64(n)` of a counter below `2^53` is exact: converting
back gives `n`. -/
theorem ofUInt64_exact (n : Nat) (h53 : n < 2 ^ 53) : F64.toInt64 (F64.ofUInt64 n) = n := by
  by_cases h0 : n = 0
  · subst h0; decide
  · obtain ⟨hL, hr⟩ := round_int_exact false n h0 h53
    have e1 : (-((floorLog2 n : Int) - 52)).toNat = 52 - floorLog2 n := by omega
    have e2 : ((floorLog2 n : Int) - 52).toNat = 0 := by omega
    unfold F64.ofUInt64
    rw [hr]
    simp only [F64.toInt64, e1, e2, pow_zero, mul_one,
      Nat.mul_div_cancel _ (Nat.two_pow_pos (52 - floorLog2 n)), Bool.false_eq_true, if_false]
    rw [if_pos (by constructor <;> omega)]

/-! ### strings -/

theorem hasPrefix_iff (s p : String) : HasPrefix s p = true ↔ p.data <+: s.data :=
  List.isPrefixOf_iff_prefix

theorem hasPrefix_append (s p t : String) (h : HasPrefix s p = true) :
    HasPrefix (s ++ t) p = true := by
  rw [hasPrefix_iff] at *
  rw [String.data_append]
  exact h.trans (List.prefix_append _ _)

theorem append_right_cancel {a b t : String} (h : a ++ t = b ++ t) : a = b := by
  apply String.ext
  have := congrArg String.data h
  rw [String.data_append, String.data_append] at this
  exact List.append_cancel_right this

theorem underscore_ne_dot (a b : String) : a ++ "_rate" ≠ b ++ ".rate" := by
  intro h
  have h1 := congrArg String.data h
  rw [String.data_append, String.data_append] at h1
  have h2 := List.append_inj_right' h1 rfl
  exact absurd h2 (by decide)

theorem cpu_not_mem (k : String) (h : HasPrefix k "cpu_" = true) : HasPrefix k "mem" = false := by
  by_contra hm
  rw [Bool.not_eq_false] at hm
  rw [hasPrefix_iff] at h hm
  rcases List.prefix_or_prefix_of_prefix h hm with h1 | h1
  · exact absurd h1 (by decide)
  · exact absurd h1 (by decide)

/-! ### maps and the loop of `CalcRate` -/

theorem lookup_cons_eq {β : Type} (m : List (String × β)) (k a : String) (v : β) :
    List.lookup a ((k, v) :: m) = if a = k then some v else m.lookup a := by
  rw [List.lookup_cons]
  by_cases h : a = k
  · subst h; simp
  · have hb : (a == k) = false := by simpa using h
    rw [hb, if_neg h]

theorem lookup_mapSet {β : Type} (m : List (String × β)) (k a : String) (v : β) :
    (mapSet m k v).lookup a = if a = k then some v else m.lookup a := by
  induction m with
  | nil =>
      unfold mapSet
      rw [lookup_cons_eq]
  | cons p m ih =>
      obtain ⟨k1, v1⟩ := p
      unfold mapSet
      by_cases h1 : k1 = k
      · subst h1
        rw [if_pos rfl, lookup_cons_eq, lookup_cons_eq]
        by_cases h : a = k1 <;> simp [h]
      · rw [if_neg h1, lookup_cons_eq, lookup_cons_eq, ih]
        by_cases h : a = k
        · subst h
          have h2 : ¬ a = k1 := fun h3 => h1 h3.symm
          simp [h2]
        · simp [h]

theorem keys_unique {info : Snapshot} (hnodup : (info.map Prod.fst).Nodup) {k : String}
    {d1 d2 : Nat} (h1 : (k, d1) ∈ info) (h2 : (k, d2) ∈ info) : d1 = d2 := by
  induction info with
  | nil => cases h1
  | cons p info ih =>
      rw [List.map_cons, List.nodup_cons] at hnodup
      obtain ⟨hnot, hnd⟩ := hnodup
      rcases List.mem_cons.mp h1 with e1 | e1 <;> rcases List.mem_cons.mp h2 with e2 | e2
      · rw [← e1] at e2; exact (Prod.mk.inj e2).2.symm
      · subst e1; exact absurd (List.mem_map_of_mem Prod.fst e2) hnot
      · subst e2; exact absurd (List.mem_map_of_mem Prod.fst e1) hnot
      · exact ih hnd e1 e2

theorem rateStep_eq_emit (g : Setting) (save : Snapshot) (nt st : F64) (rate : RateMap)
    (kd : String × Nat) :
    rateStep g save nt st rate kd =
      match emit g save nt st kd with
      | some ov => mapSet rate ov.1 ov.2
      | none => rate := by
  unfold rateStep emit
  cases ruleOf g save kd.1 kd.2 <;> rfl

theorem lookup_rateStep (g : Setting) (save : Snapshot) (nt st : F64) (rate : RateMap)
    (kd : String × Nat) (key : String) :
    (rateStep g save nt st rate kd).lookup key =
      match emit g save nt st kd with
      | some ov => if key = ov.1 then some ov.2 else rate.lookup key
      | none => rate.lookup key := by
  rw [rateStep_eq_emit]
  cases emit g save nt st kd with
  | none => rfl
  | some ov => exact lookup_mapSet _ _ _ _

/-- Entries that do not write `key` leave its value alone. -/
theorem lookup_foldl_of_no_writer (g : Setting) (save : Snapshot) (nt st : F64) (key : String) :
    ∀ (info : Snapshot) (rate : RateMap),
      (∀ kd ∈ info, ∀ v, emit g save nt st kd ≠ some (key, v)) →
      (info.foldl (rateStep g save nt st) rate).lookup key = rate.lookup key
  | [], _, _ => rfl
  | kd :: info, rate, h => by
      rw [List.foldl_cons,
        lookup_foldl_of_no_writer g save nt st key info _
          (fun kd1 h1 => h kd1 (List.mem_cons_of_mem _ h1)),
        lookup_rateStep]
      have h0 := h kd (List.mem_cons_self _ _)
      cases hem : emit g save nt st kd with
      | none => rfl
      | some ov =>
          obtain ⟨o, v⟩ := ov
          by_cases hk : key = o
          · subst hk; exact absurd hem (h0 v)
          · simp [hk]

/-- If every entry that writes `key` writes the value `v0`, and one does, the loop
leaves `v0` under `key`, in whatever order the entries are visited. -/
theorem lookup_foldl_of_writers (g : Setting) (save : Snapshot) (nt st : F64) (key : String)
    (v0 : F64) :
    ∀ (info : Snapshot) (rate : RateMap),
      (∀ kd ∈ info, ∀ v, emit g save nt st kd = some (key, v) → v = v0) →
      (∃ kd ∈ info, ∃ v, emit g save nt st kd = some (key, v)) →
      (info.foldl (rateStep g save nt st) rate).lookup key = some v0
  | [], _, _, h => by obtain ⟨kd, h1, -⟩ := h; cases h1
  | kd :: info, rate, hall, hex => by
      rw [List.foldl_cons]
      by_cases hrest : ∃ kd1 ∈ info, ∃ v, emit g save nt st kd1 = some (key, v)
      · exact lookup_foldl_of_writers g save nt st key v0 info _
          (fun kd1 h1 => hall kd1 (List.mem_cons_of_mem _ h1)) hrest
      · have hno : ∀ kd1 ∈ info, ∀ v, emit g save nt st kd1 ≠ some (key, v) :=
          fun kd1 h1 v h2 => hrest ⟨kd1, h1, v, h2⟩
        rw [lookup_foldl_of_no_writer g save nt st key info _ hno, lookup_rateStep]
        obtain ⟨kd1, h1, v, h2⟩ := hex
        rcases List.mem_cons.mp h1 with e | e
        · subst e
          rw [h2]
          simp [hall kd1 (List.mem_cons_self _ _) v h2]
        · exact absurd h2 (hno kd1 e v)

/-! ### the cases of the switch -/

theorem ruleOf_cpu_iff (g : Setting) (save : Snapshot) (k : String) (d : Nat) :
    ruleOf g save k d = Rule.cpu ↔ HasPrefix k "cpu_" = true ∧ save.get k ≤ d := by
  unfold ruleOf
  by_cases hd : save.get k ≤ d <;> cases ha : HasPrefix k "cpu_" <;>
    cases hb : HasPrefix k g.vlanPrefix <;> cases hc : HasPrefix k g.defaultVlan <;>
    cases hm : HasPrefix k "mem" <;> simp [hd]

theorem ruleOf_vlan_iff (g : Setting) (save : Snapshot) (k : String) (d : Nat) :
    ruleOf g save k d = Rule.vlan ↔
      HasPrefix k "cpu_" = false ∧
        (HasPrefix k g.vlanPrefix = true ∨ HasPrefix k g.defaultVlan = true) ∧ save.get k ≤ d := by
  unfold ruleOf
  by_cases hd : save.get k ≤ d <;> cases ha : HasPrefix k "cpu_" <;>
    cases hb : HasPrefix k g.vlanPrefix <;> cases hc : HasPrefix k g.defaultVlan <;>
    cases hm : HasPrefix k "mem" <;> simp [hd]

theorem ruleOf_mem_iff (g : Setting) (save : Snapshot) (k : String) (d : Nat) :
    ruleOf g save k d = Rule.mem ↔
      HasPrefix k "mem" = true ∧
        ¬ ((HasPrefix k g.vlanPrefix = true ∨ HasPrefix k g.defaultVlan = true) ∧ save.get k ≤ d) := by
  unfold ruleOf
  by_cases hd : save.get k ≤ d <;> cases ha : HasPrefix k "cpu_" <;>
    cases hb : HasPrefix k g.vlanPrefix <;> cases hc : HasPrefix k g.defaultVlan <;>
    cases hm : HasPrefix k "mem" <;> simp [hd]
  all_goals exact absurd (cpu_not_mem k ha) (by simp [hm])

theorem emit_cases {g : Setting} {save : Snapshot} {nt st : F64} {kd : String × Nat}
    {key : String} {v : F64} (h : emit g save nt st kd = some (key, v)) :
    (ruleOf g save kd.1 kd.2 = Rule.cpu ∧ key = kd.1 ++ "_rate" ∧
        v = F64.div (F64.ofUInt64 (kd.2 - save.get kd.1)) nt) ∨
      (ruleOf g save kd.1 kd.2 = Rule.vlan ∧ key = kd.1 ++ ".rate" ∧
        v = F64.div (F64.ofUInt64 (kd.2 - save.get kd.1)) st) ∨
      (ruleOf g save kd.1 kd.2 = Rule.mem ∧ key = kd.1 ∧ v = F64.ofUInt64 kd.2) := by
  unfold emit at h
  cases hr : ruleOf g save kd.1 kd.2 <;> rw [hr] at h <;> simp at h
  · exact Or.inl ⟨rfl, h.1.symm, h.2.symm⟩
  · exact Or.inr (Or.inl ⟨rfl, h.1.symm, h.2.symm⟩)
  · exact Or.inr (Or.inr ⟨rfl, h.1.symm, h.2.symm⟩)

/-- Two entries of the map that write the same output key write the same value,
unless one is a key `k` taken by the VLAN case and the other the key `k.rate`
taken by the mem case. -/
theorem writers_agree (g : Setting) (save : Snapshot) (nt st : F64) (info : Snapshot)
    (hnodup : (info.map Prod.fst).Nodup) (key : String)
    (hpair : ∀ kd ∈ info, ∀ kd1 ∈ info, kd1.1 = kd.1 ++ ".rate" → kd1.1 = key →
      ruleOf g save kd.1 kd.2 = Rule.vlan → ruleOf g save kd1.1 kd1.2 ≠ Rule.mem)
    {kd1 kd2 : String × Nat} (h1 : kd1 ∈ info) (h2 : kd2 ∈ info) {v1 v2 : F64}
    (e1 : emit g save nt st kd1 = some (key, v1)) (e2 : emit g save nt st kd2 = some (key, v2)) :
    v1 = v2 := by
  obtain ⟨k1, d1⟩ := kd1
  obtain ⟨k2, d2⟩ := kd2
  have same : k1 = k2 → v1 = v2 := by
    intro hk
    subst hk
    have hd := keys_unique hnodup h1 h2
    subst hd
    rw [e1] at e2
    exact (Prod.mk.inj (Option.some.inj e2)).2
  rcases emit_cases e1 with ⟨r1, k1e, -⟩ | ⟨r1, k1e, -⟩ | ⟨r1, k1e, -⟩ <;>
    rcases emit_cases e2 with ⟨r2, k2e, -⟩ | ⟨r2, k2e, -⟩ | ⟨r2, k2e, -⟩ <;>
    simp only at r1 r2 k1e k2e
  · exact same (append_right_cancel (k1e.symm.trans k2e))
  · exact absurd (k1e.symm.trans k2e) (underscore_ne_dot _ _)
  · exfalso
    have hc := hasPrefix_append k1 "cpu_" "_rate" ((ruleOf_cpu_iff _ _ _ _).mp r1).1
    rw [← k1e, k2e] at hc
    have hm := ((ruleOf_mem_iff _ _ _ _).mp r2).1
    rw [cpu_not_mem _ hc] at hm
    cases hm
  · exact absurd (k2e.symm.trans k1e) (underscore_ne_dot _ _)
  · exact same (append_right_cancel (k1e.symm.trans k2e))
  · exfalso
    exact hpair (k1, d1) h1 (k2, d2) h2 (k2e.symm.trans k1e) k2e.symm r1 r2
  · exfalso
    have hc := hasPrefix_append k2 "cpu_" "_rate" ((ruleOf_cpu_iff _ _ _ _).mp r2).1
    rw [← k2e, k1e] at hc
    have hm := ((ruleOf_mem_iff _ _ _ _).mp r1).1
    rw [cpu_not_mem _ hc] at hm
    cases hm
  · exfalso
    exact hpair (k2, d2) h2 (k1, d1) h1 (k1e.symm.trans k2e) k1e.symm r2 r1
  · exact same (k1e.symm.trans k2e)

theorem Sub_pos (now last : Int) (h : last < now) : 0 < Time.Sub now last := by
  unfold Time.Sub minDuration maxDuration
  split_ifs <;> omega

theorem Sub_self (t : Int) : Time.Sub t t = 0 := by
  unfold Time.Sub minDuration maxDuration
  norm_num

theorem CalcRate_fst (g : Setting) (self : Metric) (info : Snapshot) (now : Time) :
    (self.CalcRate g info now).1 =
      info.foldl (rateStep g self.Save (F64.ofInt64 (Time.Sub now self.Last))
        (Duration.Seconds (Time.Sub now self.Last))) [] := rfl

theorem foldl_filter_of_id {α β : Type} (f : β → α → β) (p : α → Bool) :
    ∀ (l : List α) (acc : β), (∀ x ∈ l, p x = false → ∀ b, f b x = b) →
      l.foldl f acc = (l.filter p).foldl f acc
  | [], _, _ => rfl
  | x :: l, acc, h => by
      have ih := fun b => foldl_filter_of_id f p l b (fun y hy => h y (List.mem_cons_of_mem _ hy))
      cases hp : p x
      · rw [List.filter_cons_of_neg (by simp [hp]), List.foldl_cons,
          h x (List.mem_cons_self _ _) hp acc]
        exact ih acc
      · rw [List.filter_cons_of_pos hp, List.foldl_cons, List.foldl_cons]
        exact ih _

/-- With `now` later than `Last`, every value the loop of `CalcRate` writes is
`>= 0`. -/
theorem emit_geZero (g : Setting) (save : Snapshot) (delta : Int) (hd : 0 < delta)
    (kd : String × Nat) (hu : kd.2 < 2 ^ 64) (key : String) (v : F64)
    (h : emit g save (F64.ofInt64 delta) (Duration.Seconds delta) kd = some (key, v)) :
    v.geZero = true := by
  apply geZero_of_nonNeg
  rcases emit_cases h with ⟨-, -, hv⟩ | ⟨-, -, hv⟩ | ⟨-, -, hv⟩ <;> rw [hv]
  · exact div_nonNeg _ _ (ofUInt64_nonNeg _) (ofUInt64_ne_inf _ (by omega)) (ofInt64_pos _ hd)
  · exact div_nonNeg _ _ (ofUInt64_nonNeg _) (ofUInt64_ne_inf _ (by omega)) (Seconds_pos _ hd)
  · exact ofUInt64_nonNeg _

theorem foldl_geZero (g : Setting) (save : Snapshot) (delta : Int) (hd : 0 < delta) :
    ∀ (info : Snapshot) (rate : RateMap), (∀ kd ∈ info, kd.2 < 2 ^ 64) →
      (∀ key v, rate.lookup key = some v → v.geZero = true) →
      ∀ key v, (info.foldl (rateStep g save (F64.ofInt64 delta) (Duration.Seconds delta))
        rate).lookup key = some v → v.geZero = true
  | [], _, _, hr => hr
  | kd :: info, rate, hu, hr => by
      rw [List.foldl_cons]
      apply foldl_geZero g save delta hd info _ (fun x hx => hu x (List.mem_cons_of_mem _ hx))
      intro key v hv
      rw [lookup_rateStep] at hv
      cases hem : emit g save (F64.ofInt64 delta) (Duration.Seconds delta) kd with
      | none => rw [hem] at hv; exact hr key v hv
      | some ov =>
          obtain ⟨o, w⟩ := ov
          rw [hem] at hv
          by_cases hk : key = o
          · simp only [hk, if_true, Option.some.injEq] at hv
            subst hv
            exact emit_geZero g save delta hd kd (hu kd (List.mem_cons_self _ _)) o w hem
          · simp only [hk, if_false] at hv
            exact hr key v hv

theorem ofInt64_zero : F64.ofInt64 0 = F64.zero false := by decide

/-- Dividing by `+0`: `+Inf` for a positive dividend, NaN for `+0`. -/
theorem div_zero_of_nonNeg (x : F64) (hx : x.NonNeg) :
    F64.div x (F64.zero false) = if x = F64.zero false then F64.nan else F64.inf false := by
  rcases hx with h | h | ⟨m, e, hm, -, h⟩ <;> subst h
  · simp [F64.div, F64.zero]
  · simp [F64.div, F64.zero]
  · simp [F64.div, F64.zero, hm]

theorem Close_Close (f : FileState) : f.Close.Close = f.Close := by
  cases f <;> rfl

theorem mapSet_of_not_mem {β : Type} (m : List (String × β)) (k : String) (v : β)
    (h : k ∉ m.map Prod.fst) : mapSet m k v = m ++ [(k, v)] := by
  induction m with
  | nil => rfl
  | cons p m ih =>
      obtain ⟨k1, v1⟩ := p
      rw [List.map_cons, List.mem_cons, not_or] at h
      have h1 : ¬ k1 = k := fun e => h.1 e.symm
      simp only [mapSet, if_neg h1, ih h.2, List.cons_append]

/-- Copying a map entry by entry into an empty map gives the map back. -/
theorem foldl_mapSet_append :
    ∀ (l acc : Snapshot), ((acc ++ l).map Prod.fst).Nodup →
      l.foldl (fun save kd => mapSet save kd.1 kd.2) acc = acc ++ l
  | [], acc, _ => by simp
  | kd :: l, acc, h => by
      have hk : kd.1 ∉ acc.map Prod.fst := by
        rw [List.map_append, List.map_cons] at h
        have := (List.nodup_append.mp h).2.2
        intro hmem
        exact this hmem (List.mem_cons_self _ _)
      rw [List.foldl_cons, mapSet_of_not_mem acc kd.1 kd.2 hk,
        foldl_mapSet_append l (acc ++ [(kd.1, kd.2)]) (by simpa using h)]
      simp

theorem SaveLast_Save (self : Metric) (info : Snapshot) (h : (info.map Prod.fst).Nodup) :
    (self.SaveLast info).Save = info := by
  have := foldl_mapSet_append info [] (by simpa using h)
  simpa [Metric.SaveLast] using this

theorem Exit_Save (self : Metric) (r : Bool) :
    (self.Exit r).1.Save = self.Save ∧ (self.Exit r).1.Last = self.Last := by
  unfold Metric.Exit
  cases self.Stop <;> cases r <;> simp

theorem UpdateStats_Save (g : Setting) (self : Metric) (env : Env) (cid : String) (pid : Nat) :
    (self.UpdateStats g env cid pid).self.Save = self.Save ∧
      (self.UpdateStats g env cid pid).self.Last = self.Last := by
  unfold Metric.UpdateStats
  have hE := Exit_Save self env.stopReceiver
  cases hp : env.procExists
  · simp only [Bool.false_eq_true, if_false]
    rcases hx : self.Exit env.stopReceiver with ⟨s1, c⟩
    rw [hx] at hE
    cases c with
    | panicked msg => exact hE
    | blocked => exact hE
    | ret u =>
        simp only
        cases hf : g.client cid with
        | delivered st =>
            cases st with
            | none => exact hE
            | some stats =>
                simp only
                split <;> exact hE
        | silent t =>
            cases t <;> simp <;> exact hE
  · simp only [if_true]
    cases hf : g.client cid with
    | delivered st =>
        cases st with
        | none => exact ⟨rfl, rfl⟩
        | some stats =>
            simp only
            split <;> exact ⟨rfl, rfl⟩
    | silent t =>
        cases t <;> simp

/-! # The claims -/

/-! ### C1: cpu rates -/

/-- C1. For every current snapshot `info` (visited in any order), saved snapshot
and `now` later than `Last`, and every key `k` of `info` that starts with `cpu_`
and whose counter `d` has not decreased, the map returned by `CalcRate` holds
under `k_rate` the float64 quotient of `d - Save[k]` by the elapsed nanoseconds,
and that value is `>= 0`. -/
theorem C1_cpu_rate (g : Setting) (self : Metric) (info : Snapshot) (now : Time) (k : String)
    (d : Nat) (hnodup : (info.map Prod.fst).Nodup) (hmem : (k, d) ∈ info) (hu : d < 2 ^ 64)
    (hcpu : HasPrefix k "cpu_" = true) (hge : self.Save.get k ≤ d) (hel : self.Last < now) :
    (self.CalcRate g info now).1.lookup (k ++ "_rate") =
        some (F64.div (F64.ofUInt64 (d - self.Save.get k))
          (F64.ofInt64 (Time.Sub now self.Last))) ∧
      F64.geZero (F64.div (F64.ofUInt64 (d - self.Save.get k))
          (F64.ofInt64 (Time.Sub now self.Last))) = true := by
  constructor
  · rw [CalcRate_fst]
    have hr : ruleOf g self.Save k d = Rule.cpu := (ruleOf_cpu_iff _ _ _ _).mpr ⟨hcpu, hge⟩
    have hem : emit g self.Save (F64.ofInt64 (Time.Sub now self.Last))
        (Duration.Seconds (Time.Sub now self.Last)) (k, d) =
        some (k ++ "_rate", F64.div (F64.ofUInt64 (d - self.Save.get k))
          (F64.ofInt64 (Time.Sub now self.Last))) := by
      simp only [emit, hr]
    apply lookup_foldl_of_writers
    · intro kd hkd v hv
      refine writers_agree g self.Save _ _ info hnodup (k ++ "_rate") ?_ hkd hmem hv hem
      intro kd0 _ kd1 _ h1 h2 _ _
      exact underscore_ne_dot _ _ (h2.symm.trans h1)
    · exact ⟨(k, d), hmem, _, hem⟩
  · apply geZero_of_nonNeg
    apply div_nonNeg _ _ (ofUInt64_nonNeg _) (ofUInt64_ne_inf _ (by omega))
    exact ofInt64_pos _ (Sub_pos _ _ hel)

/-- C1 at the scenario of the specification: saved `{cpu_usage: 1000}`, current
`{cpu_usage: 5000}`, one second (1e9 ns) later; the rate is the float64 nearest
to `4000 / 1e9`, `4722366482869645 * 2^-70`. -/
theorem C1_cpu_rate_witness :
    (([("cpu_usage", 5000)] : Snapshot).map Prod.fst).Nodup ∧
      (5000 : Nat) < 2 ^ 64 ∧ HasPrefix "cpu_usage" "cpu_" = true ∧
      (metricAt0 sinkOk [("cpu_usage", 1000)]).Save.get "cpu_usage" ≤ 5000 ∧
      (metricAt0 sinkOk [("cpu_usage", 1000)]).Last < 1000000000 ∧
      ((metricAt0 sinkOk [("cpu_usage", 1000)]).CalcRate ethSetting [("cpu_usage", 5000)]
          1000000000).1.lookup "cpu_usage_rate" =
        some (F64.div (F64.ofUInt64 4000) (F64.ofInt64 1000000000)) ∧
      F64.div (F64.ofUInt64 4000) (F64.ofInt64 1000000000) =
        F64.fin false 4722366482869645 (-70) ∧
      F64.geZero (F64.div (F64.ofUInt64 4000) (F64.ofInt64 1000000000)) = true :=
  ⟨by decide, by decide, by decide, by decide, by decide,
    (C1_cpu_rate ethSetting (metricAt0 sinkOk [("cpu_usage", 1000)]) [("cpu_usage", 5000)]
      1000000000 "cpu_usage" 5000 (by decide) (by decide) (by decide) (by decide) (by decide)
      (by decide)).1,
    by decide,
    (C1_cpu_rate ethSetting (metricAt0 sinkOk [("cpu_usage", 1000)]) [("cpu_usage", 5000)]
      1000000000 "cpu_usage" 5000 (by decide) (by decide) (by decide) (by decide) (by decide)
      (by decide)).2⟩

/-! ### C2: VLAN rates -/

/-- C2 (amended). For every current snapshot `info` (visited in any order), saved
snapshot, VLAN prefix, default VLAN key and `now` later than `Last`, and every key
`k` of `info` that does not start with `cpu_`, starts with the VLAN prefix or with
the default VLAN key, and whose counter `d` has not decreased: provided `info` has
no key `k.rate` that starts with `mem` and whose counter decreased, the map
returned by `CalcRate` holds under `k.rate` the float64 quotient of
`d - Save[k]` by the elapsed float64 seconds, and that value is `>= 0`. -/
theorem C2_vlan_rate (g : Setting) (self : Metric) (info : Snapshot) (now : Time) (k : String)
    (d : Nat) (hnodup : (info.map Prod.fst).Nodup) (hmem : (k, d) ∈ info) (hu : d < 2 ^ 64)
    (hcpu : HasPrefix k "cpu_" = false)
    (hvlan : HasPrefix k g.vlanPrefix = true ∨ HasPrefix k g.defaultVlan = true)
    (hge : self.Save.get k ≤ d) (hel : self.Last < now)
    (hcoll : ∀ kd ∈ info, kd.1 = k ++ ".rate" → HasPrefix kd.1 "mem" = true →
      self.Save.get kd.1 ≤ kd.2) :
    (self.CalcRate g info now).1.lookup (k ++ ".rate") =
        some (F64.div (F64.ofUInt64 (d - self.Save.get k))
          (Duration.Seconds (Time.Sub now self.Last))) ∧
      F64.geZero (F64.div (F64.ofUInt64 (d - self.Save.get k))
          (Duration.Seconds (Time.Sub now self.Last))) = true := by
  constructor
  · rw [CalcRate_fst]
    have hr : ruleOf g self.Save k d = Rule.vlan :=
      (ruleOf_vlan_iff _ _ _ _).mpr ⟨hcpu, hvlan, hge⟩
    have hem : emit g self.Save (F64.ofInt64 (Time.Sub now self.Last))
        (Duration.Seconds (Time.Sub now self.Last)) (k, d) =
        some (k ++ ".rate", F64.div (F64.ofUInt64 (d - self.Save.get k))
          (Duration.Seconds (Time.Sub now self.Last))) := by
      simp only [emit, hr]
    apply lookup_foldl_of_writers
    · intro kd hkd v hv
      refine writers_agree g self.Save _ _ info hnodup (k ++ ".rate") ?_ hkd hmem hv hem
      intro kd0 _ kd1 hkd1 _ h2 _ hm
      obtain ⟨hm1, hm2⟩ := (ruleOf_mem_iff _ _ _ _).mp hm
      apply hm2
      refine ⟨?_, hcoll kd1 hkd1 h2 hm1⟩
      rw [h2]
      exact hvlan.imp (hasPrefix_append k _ _) (hasPrefix_append k _ _)
    · exact ⟨(k, d), hmem, _, hem⟩
  · apply geZero_of_nonNeg
    apply div_nonNeg _ _ (ofUInt64_nonNeg _) (ofUInt64_ne_inf _ (by omega))
    exact Seconds_pos _ (Sub_pos _ _ hel)

/-- C2 fails as stated: with the zero-value settings (empty VLAN prefix), saved
snapshot `{mem_usage: 100, mem_usage.rate: 7}` and current snapshot
`{mem_usage: 1100, mem_usage.rate: 5}` visited in this order, one second later,
the key `mem_usage` meets every condition of the claim (no `cpu_` prefix, the
VLAN prefix matches, counter not decreased), yet `mem_usage.rate` ends as
`float64(5)`: the key `mem_usage.rate`, whose counter decreased, falls to the mem
case and overwrites the rate `1000`. -/
theorem C2_vlan_rate_counterexample :
    (([("mem_usage", 1100), ("mem_usage.rate", 5)] : Snapshot).map Prod.fst).Nodup ∧
      HasPrefix "mem_usage" "cpu_" = false ∧
      HasPrefix "mem_usage" zeroSetting.vlanPrefix = true ∧
      (metricAt0 sinkOk [("mem_usage", 100), ("mem_usage.rate", 7)]).Save.get "mem_usage"
        ≤ 1100 ∧
      (metricAt0 sinkOk [("mem_usage", 100), ("mem_usage.rate", 7)]).Last < 1000000000 ∧
      ((metricAt0 sinkOk [("mem_usage", 100), ("mem_usage.rate", 7)]).CalcRate zeroSetting
          [("mem_usage", 1100), ("mem_usage.rate", 5)] 1000000000).1.lookup "mem_usage.rate" =
        some (F64.ofUInt64 5) ∧
      F64.ofUInt64 5 ≠ F64.div (F64.ofUInt64 (1100 - 100)) (Duration.Seconds 1000000000) := by
  decide

/-- C2 (amended) at the scenario of the specification: saved `{eth0_rx: 100}`,
current `{eth0_rx: 1100}`, VLAN prefix `eth`, one second later; the rate is
`1000.0`. -/
theorem C2_vlan_rate_witness :
    (([("eth0_rx", 1100)] : Snapshot).map Prod.fst).Nodup ∧
      (1100 : Nat) < 2 ^ 64 ∧ HasPrefix "eth0_rx" "cpu_" = false ∧
      HasPrefix "eth0_rx" ethSetting.vlanPrefix = true ∧
      (metricAt0 sinkOk [("eth0_rx", 100)]).Save.get "eth0_rx" ≤ 1100 ∧
      (metricAt0 sinkOk [("eth0_rx", 100)]).Last < 1000000000 ∧
      ((metricAt0 sinkOk [("eth0_rx", 100)]).CalcRate ethSetting [("eth0_rx", 1100)]
          1000000000).1.lookup "eth0_rx.rate" =
        some (F64.div (F64.ofUInt64 1000) (Duration.Seconds 1000000000)) ∧
      F64.div (F64.ofUInt64 1000) (Duration.Seconds 1000000000) = F64.ofUInt64 1000 ∧
      F64.geZero (F64.div (F64.ofUInt64 1000) (Duration.Seconds 1000000000)) = true :=
  ⟨by decide, by decide, by decide, by decide, by decide, by decide,
    (C2_vlan_rate ethSetting (metricAt0 sinkOk [("eth0_rx", 100)]) [("eth0_rx", 1100)]
      1000000000 "eth0_rx" 1100 (by decide) (by decide) (by decide) (by decide)
      (Or.inl (by decide)) (by decide) (by decide) (by decide)).1,
    by decide,
    (C2_vlan_rate ethSetting (metricAt0 sinkOk [("eth0_rx", 100)]) [("eth0_rx", 1100)]
      1000000000 "eth0_rx" 1100 (by decide) (by decide) (by decide) (by decide)
      (Or.inl (by decide)) (by decide) (by decide) (by decide)).2⟩

/-! ### C3: memory gauges -/

/-- C3 (amended). For every setting, saved snapshot and elapsed time, and every key
`k` of `info` (visited in any order) that starts with `mem` and is not taken by
the VLAN case (it starts with neither the VLAN prefix nor the default VLAN key,
or its counter decreased): provided no key `k0` of `info` with `k0.rate = k` is
taken by the VLAN case, the map returned by `CalcRate` holds under `k` itself the
value `float64(info[k])`, whatever `Save[k]` is; for a counter below `2^53` that
conversion is exact. -/
theorem C3_mem_gauge (g : Setting) (self : Metric) (info : Snapshot) (now : Time) (k : String)
    (d : Nat) (hnodup : (info.map Prod.fst).Nodup) (hmem : (k, d) ∈ info)
    (hk : HasPrefix k "mem" = true)
    (hnv : ¬ ((HasPrefix k g.vlanPrefix = true ∨ HasPrefix k g.defaultVlan = true) ∧
      self.Save.get k ≤ d))
    (hcoll : ∀ kd ∈ info, kd.1 ++ ".rate" = k →
      ¬ ((HasPrefix kd.1 g.vlanPrefix = true ∨ HasPrefix kd.1 g.defaultVlan = true) ∧
        self.Save.get kd.1 ≤ kd.2)) :
    (self.CalcRate g info now).1.lookup k = some (F64.ofUInt64 d) ∧
      (d < 2 ^ 53 → F64.toInt64 (F64.ofUInt64 d) = d) := by
  refine ⟨?_, ofUInt64_exact d⟩
  rw [CalcRate_fst]
  have hr : ruleOf g self.Save k d = Rule.mem := (ruleOf_mem_iff _ _ _ _).mpr ⟨hk, hnv⟩
  have hem : emit g self.Save (F64.ofInt64 (Time.Sub now self.Last))
      (Duration.Seconds (Time.Sub now self.Last)) (k, d) = some (k, F64.ofUInt64 d) := by
    simp only [emit, hr]
  apply lookup_foldl_of_writers
  · intro kd hkd v hv
    refine writers_agree g self.Save _ _ info hnodup k ?_ hkd hmem hv hem
    intro kd0 hkd0 kd1 _ h1 h2 hv0 _
    exact hcoll kd0 hkd0 (h1.symm.trans h2) ((ruleOf_vlan_iff _ _ _ _).mp hv0).2
  · exact ⟨(k, d), hmem, _, hem⟩

/-- C3 fails as stated: with the zero-value settings (VLAN prefix and default VLAN
key both empty) every key starts with the prefix, so `mem_usage`, whose counter
has not decreased, is taken by the VLAN case: the returned map has no key
`mem_usage`, only `mem_usage.rate`. -/
theorem C3_mem_gauge_counterexample :
    zeroSetting.vlanPrefix = "" ∧ zeroSetting.defaultVlan = "" ∧
      HasPrefix "mem_usage" "mem" = true ∧
      ((metricAt0 sinkOk []).CalcRate zeroSetting [("mem_usage", 5)] 1000000000).1.lookup
        "mem_usage" = none ∧
      ((metricAt0 sinkOk []).CalcRate zeroSetting [("mem_usage", 5)] 1000000000).1 =
        [("mem_usage.rate", F64.ofUInt64 5)] := by
  decide

/-- C3 (amended) at an example: with VLAN prefix `eth`, the key `mem_usage` is
reported as `float64(5)` although its counter fell from 10 to 5. -/
theorem C3_mem_gauge_witness :
    (([("mem_usage", 5)] : Snapshot).map Prod.fst).Nodup ∧
      HasPrefix "mem_usage" "mem" = true ∧
      ((metricAt0 sinkOk [("mem_usage", 10)]).CalcRate ethSetting [("mem_usage", 5)]
        1000000000).1.lookup "mem_usage" = some (F64.ofUInt64 5) :=
  ⟨by decide, by decide,
    (C3_mem_gauge ethSetting (metricAt0 sinkOk [("mem_usage", 10)]) [("mem_usage", 5)]
      1000000000 "mem_usage" 5 (by decide) (by decide) (by decide) (by decide) (by decide)).1⟩

/-! ### C4: decreased counters -/

/-- C4 (amended). For every key `k` of `info` that does not start with `mem` (so
every key classified by the cpu or the VLAN case only) and whose counter
decreased, `info[k] < Save[k]`, the switch of `CalcRate` takes no case: nothing
is emitted for `k`, the returned map is the one returned for `info` without `k`.
When moreover `now` is later than `Last`, no value of the returned map is
negative. -/
theorem C4_decrease_skipped (g : Setting) (self : Metric) (info : Snapshot) (now : Time)
    (k : String) (d : Nat) (hnodup : (info.map Prod.fst).Nodup) (hmem : (k, d) ∈ info)
    (hk : HasPrefix k "mem" = false) (hlt : d < self.Save.get k) :
    ruleOf g self.Save k d = Rule.none ∧
      (self.CalcRate g info now).1 =
        (self.CalcRate g (info.filter (fun kd => kd.1 != k)) now).1 ∧
      (self.Last < now → (∀ kd ∈ info, kd.2 < 2 ^ 64) →
        ∀ key v, (self.CalcRate g info now).1.lookup key = some v → v.geZero = true) := by
  have hr : ruleOf g self.Save k d = Rule.none := by
    unfold ruleOf
    have h1 : ¬ self.Save.get k ≤ d := by omega
    simp [h1, hk]
  refine ⟨hr, ?_, ?_⟩
  · rw [CalcRate_fst, CalcRate_fst]
    apply foldl_filter_of_id
    intro kd hkd hp b
    obtain ⟨k1, d1⟩ := kd
    have hk1 : k1 = k := by simpa using hp
    subst hk1
    have hd1 : d1 = d := keys_unique hnodup hkd hmem
    subst hd1
    simp only [rateStep, hr]
  · intro hel hu key v hv
    rw [CalcRate_fst] at hv
    exact foldl_geZero g self.Save _ (Sub_pos _ _ hel) info [] hu (fun _ _ h => by cases h) key v hv

/-- C4 fails as stated: `mem_usage` is classified (it starts with `mem`) and its
counter decreased from 10 to 5, yet the returned map holds the entry
`mem_usage = float64(5)`: the mem case does not look at the saved value. -/
theorem C4_decrease_skipped_counterexample :
    HasPrefix "mem_usage" "mem" = true ∧
      (5 : Nat) < (metricAt0 sinkOk [("mem_usage", 10)]).Save.get "mem_usage" ∧
      ((metricAt0 sinkOk [("mem_usage", 10)]).CalcRate ethSetting [("mem_usage", 5)]
        1000000000).1 = [("mem_usage", F64.ofUInt64 5)] := by
  decide

/-- C4 (amended) at an example: `cpu_usage` fell from 1000 to 400, the switch takes
no case for it and the returned map is the one for `{mem_usage: 5}` alone. -/
theorem C4_decrease_skipped_witness :
    (([("cpu_usage", 400), ("mem_usage", 5)] : Snapshot).map Prod.fst).Nodup ∧
      HasPrefix "cpu_usage" "mem" = false ∧
      (400 : Nat) < (metricAt0 sinkOk [("cpu_usage", 1000)]).Save.get "cpu_usage" ∧
      ruleOf ethSetting (metricAt0 sinkOk [("cpu_usage", 1000)]).Save "cpu_usage" 400 =
        Rule.none ∧
      ((metricAt0 sinkOk [("cpu_usage", 1000)]).CalcRate ethSetting
          [("cpu_usage", 400), ("mem_usage", 5)] 1000000000).1 =
        ((metricAt0 sinkOk [("cpu_usage", 1000)]).CalcRate ethSetting
          [("mem_usage", 5)] 1000000000).1 :=
  ⟨by decide, by decide, by decide,
    (C4_decrease_skipped ethSetting (metricAt0 sinkOk [("cpu_usage", 1000)])
      [("cpu_usage", 400), ("mem_usage", 5)] 1000000000 "cpu_usage" 400 (by decide) (by decide)
      (by decide) (by decide)).1,
    (C4_decrease_skipped ethSetting (metricAt0 sinkOk [("cpu_usage", 1000)])
      [("cpu_usage", 400), ("mem_usage", 5)] 1000000000 "cpu_usage" 400 (by decide) (by decide)
      (by decide) (by decide)).2.1⟩

/-! ### C5: the window is not checked -/

/-- C5 (amended). `CalcRate` has no error result and no guard on the window: for
every `now`, also one that is not later than `Last`, it returns a rate map and
sets `Last = now`, and a `cpu_` key whose counter has not decreased is reported
with the float64 quotient by the elapsed nanoseconds. With `now = Last` that
quotient is `+Inf` when the counter grew and NaN when it is unchanged. -/
theorem C5_no_window_guard (g : Setting) (self : Metric) (info : Snapshot) (now : Time)
    (k : String) (d : Nat) (hnodup : (info.map Prod.fst).Nodup) (hmem : (k, d) ∈ info)
    (hcpu : HasPrefix k "cpu_" = true) (hge : self.Save.get k ≤ d) :
    (self.CalcRate g info now).2.Last = now ∧
      (self.CalcRate g info now).1.lookup (k ++ "_rate") =
        some (F64.div (F64.ofUInt64 (d - self.Save.get k))
          (F64.ofInt64 (Time.Sub now self.Last))) ∧
      (now = self.Last →
        (self.CalcRate g info now).1.lookup (k ++ "_rate") =
          some (if self.Save.get k < d then F64.inf false else F64.nan)) := by
  have hmain : (self.CalcRate g info now).1.lookup (k ++ "_rate") =
        some (F64.div (F64.ofUInt64 (d - self.Save.get k))
          (F64.ofInt64 (Time.Sub now self.Last))) := by
    rw [CalcRate_fst]
    have hr : ruleOf g self.Save k d = Rule.cpu := (ruleOf_cpu_iff _ _ _ _).mpr ⟨hcpu, hge⟩
    have hem : emit g self.Save (F64.ofInt64 (Time.Sub now self.Last))
        (Duration.Seconds (Time.Sub now self.Last)) (k, d) =
        some (k ++ "_rate", F64.div (F64.ofUInt64 (d - self.Save.get k))
          (F64.ofInt64 (Time.Sub now self.Last))) := by
      simp only [emit, hr]
    apply lookup_foldl_of_writers
    · intro kd hkd v hv
      refine writers_agree g self.Save _ _ info hnodup (k ++ "_rate") ?_ hkd hmem hv hem
      intro kd0 _ kd1 _ h1 h2 _ _
      exact underscore_ne_dot _ _ (h2.symm.trans h1)
    · exact ⟨(k, d), hmem, _, hem⟩
  refine ⟨rfl, hmain, ?_⟩
  intro hnow
  rw [hmain, hnow, Sub_self, ofInt64_zero, div_zero_of_nonNeg _ (ofUInt64_nonNeg _)]
  by_cases hlt : self.Save.get k < d
  · have hpos := ofUInt64_pos (d - self.Save.get k) (by omega)
    have hne : F64.ofUInt64 (d - self.Save.get k) ≠ F64.zero false := by
      rcases hpos with h | ⟨m, e, hm, -, h⟩
      · rw [h]; simp [F64.zero]
      · rw [h]; simp [F64.zero, hm]
    rw [if_neg hne, if_pos hlt]
  · have h0 : d - self.Save.get k = 0 := by omega
    rw [h0, if_neg hlt]
    rfl

/-- C5 fails as stated: with `now = Last` (elapsed time 0) `CalcRate` does not
fail, it returns a rate map, in which the grown counter `cpu_usage` is reported
with the rate `+Inf` and the unchanged `cpu_user` with NaN. -/
theorem C5_no_window_guard_counterexample :
    Time.Sub 0 (metricAt0 sinkOk [("cpu_usage", 1000), ("cpu_user", 7)]).Last = 0 ∧
      ((metricAt0 sinkOk [("cpu_usage", 1000), ("cpu_user", 7)]).CalcRate ethSetting
          [("cpu_usage", 5000), ("cpu_user", 7)] 0).1 =
        [("cpu_usage_rate", F64.inf false), ("cpu_user_rate", F64.nan)] := by
  decide

/-- C5 (amended) at an example: `now = Last = 0` and `cpu_usage` grown from 1000 to
5000 give `Last = 0` and the rate `+Inf`. -/
theorem C5_no_window_guard_witness :
    (([("cpu_usage", 5000)] : Snapshot).map Prod.fst).Nodup ∧
      HasPrefix "cpu_usage" "cpu_" = true ∧
      ((metricAt0 sinkOk [("cpu_usage", 1000)]).CalcRate ethSetting [("cpu_usage", 5000)]
        0).2.Last = 0 ∧
      ((metricAt0 sinkOk [("cpu_usage", 1000)]).CalcRate ethSetting [("cpu_usage", 5000)]
        0).1.lookup "cpu_usage_rate" = some (F64.inf false) :=
  ⟨by decide, by decide,
    (C5_no_window_guard ethSetting (metricAt0 sinkOk [("cpu_usage", 1000)])
      [("cpu_usage", 5000)] 0 "cpu_usage" 5000 (by decide) (by decide) (by decide)
      (by decide)).1,
    (C5_no_window_guard ethSetting (metricAt0 sinkOk [("cpu_usage", 1000)])
      [("cpu_usage", 5000)] 0 "cpu_usage" 5000 (by decide) (by decide) (by decide)
      (by decide)).2.2 rfl⟩

/-! ### C6: the state after a sample cycle -/

/-- C6 (amended). For every `Metric` state and every successful sample cycle as this
file implements it (`UpdateStats` yields `current`, then `CalcRate(current, now)`,
then `Send` of the result), the state after the cycle has `Last = now`, but
`Save` is the snapshot saved before the cycle: neither `CalcRate` nor `Send`
stores `current`, whether `Send` succeeds or fails. The snapshot is replaced only
by a separate call `SaveLast(current)`, after which `Save = current` and `Last`
is still `now`. -/
theorem C6_cycle_state (g : Setting) (self : Metric) (env : Env) (cid : String) (pid : Nat)
    (now : Time) (current : Snapshot) (hnodup : (current.map Prod.fst).Nodup)
    (_hupd : (self.UpdateStats g env cid pid).ctl = Ctl.ret (current, none)) :
    (afterCycle g self env cid pid now current).Last = now ∧
      (afterCycle g self env cid pid now current).Save = self.Save ∧
      ((afterCycle g self env cid pid now current).SaveLast current).Save = current ∧
      ((afterCycle g self env cid pid now current).SaveLast current).Last = now := by
  refine ⟨rfl, ?_, SaveLast_Save _ _ hnodup, rfl⟩
  exact (UpdateStats_Save g self env cid pid).1

/-- C6 fails as stated: a metric that saved `{cpu_usage: 1000}` at time 0 runs the
cycle at 1 s (`UpdateStats` yields `snapshotAt1` with `cpu_usage = 5000`, then
`CalcRate`, then `Send`): afterwards `Last` is 1 s but `Save` is still
`{cpu_usage: 1000}`, not the current snapshot, and a further `CalcRate` at 2 s
with the unchanged counter `cpu_usage = 5000` reports the rate `4000 / 1e9`, the
difference to the old baseline. -/
theorem C6_cycle_state_counterexample :
    ((metricAt0 sinkOk [("cpu_usage", 1000)]).UpdateStats (liveSetting statsAt1) quietEnv
        "c0ffee" 42).ctl = Ctl.ret (snapshotAt1, none) ∧
      (afterCycle (liveSetting statsAt1) (metricAt0 sinkOk [("cpu_usage", 1000)]) quietEnv
        "c0ffee" 42 1000000000 snapshotAt1).Save = [("cpu_usage", 1000)] ∧
      ([("cpu_usage", 1000)] : Snapshot) ≠ snapshotAt1 ∧
      ((afterCycle (liveSetting statsAt1) (metricAt0 sinkOk [("cpu_usage", 1000)]) quietEnv
        "c0ffee" 42 1000000000 snapshotAt1).CalcRate (liveSetting statsAt1) snapshotAt1
          2000000000).1.lookup "cpu_usage_rate" =
        some (F64.div (F64.ofUInt64 4000) (F64.ofInt64 1000000000)) ∧
      F64.div (F64.ofUInt64 4000) (F64.ofInt64 1000000000) ≠ F64.zero false := by
  decide

/-- C6 (amended) at an example, with a sink that rejects the call: after the cycle
at 1 s, `Last` is 1 s and `Save` is still `{cpu_usage: 1000}`; `SaveLast` then
stores the current snapshot. -/
theorem C6_cycle_state_witness :
    (snapshotAt1.map Prod.fst).Nodup ∧
      ((metricAt0 sinkDown [("cpu_usage", 1000)]).UpdateStats (liveSetting statsAt1) quietEnv
        "c0ffee" 42).ctl = Ctl.ret (snapshotAt1, none) ∧
      (afterCycle (liveSetting statsAt1) (metricAt0 sinkDown [("cpu_usage", 1000)]) quietEnv
        "c0ffee" 42 1000000000 snapshotAt1).Last = 1000000000 ∧
      (afterCycle (liveSetting statsAt1) (metricAt0 sinkDown [("cpu_usage", 1000)]) quietEnv
        "c0ffee" 42 1000000000 snapshotAt1).Save = [("cpu_usage", 1000)] ∧
      ((afterCycle (liveSetting statsAt1) (metricAt0 sinkDown [("cpu_usage", 1000)]) quietEnv
        "c0ffee" 42 1000000000 snapshotAt1).SaveLast snapshotAt1).Save = snapshotAt1 :=
  ⟨by decide, by decide,
    (C6_cycle_state (liveSetting statsAt1) (metricAt0 sinkDown [("cpu_usage", 1000)]) quietEnv
      "c0ffee" 42 1000000000 snapshotAt1 (by decide) (by decide)).1,
    (C6_cycle_state (liveSetting statsAt1) (metricAt0 sinkDown [("cpu_usage", 1000)]) quietEnv
      "c0ffee" 42 1000000000 snapshotAt1 (by decide) (by decide)).2.1,
    (C6_cycle_state (liveSetting statsAt1) (metricAt0 sinkDown [("cpu_usage", 1000)]) quietEnv
      "c0ffee" 42 1000000000 snapshotAt1 (by decide) (by decide)).2.2.1⟩

/-! ### C7: `Exit` twice -/

/-- C7 (amended). `Exit` is not idempotent and has no double-stop guard. For every
`Metric` whose `Stop` channel is open, as `CreateMetric` makes it, a first `Exit()`
that finds a receiver on `Stop` returns, leaving `Stop` closed and the file handle
closed; a second `Exit()` then panics on the send to the closed channel, whether
or not anyone receives, and leaves the state as the first call left it. -/
theorem C7_exit_twice (self : Metric) (receiver : Bool) (hopen : self.Stop = ChanState.ready) :
    (self.Exit true).2 = Ctl.ret () ∧
      (self.Exit true).1.Stop = ChanState.closed ∧
      (self.Exit true).1.statFile = self.statFile.Close ∧
      ((self.Exit true).1.Exit receiver).2 = Ctl.panicked "send on closed channel" ∧
      ((self.Exit true).1.Exit receiver).1 = (self.Exit true).1 := by
  obtain ⟨step, client, tag, endpoint, stop, file, last, save⟩ := self
  simp only at hopen
  subst hopen
  simp [Metric.Exit, Close_Close]

/-- C7 fails as stated: the second `Exit()` on a metric made by `CreateMetric`
panics with `send on closed channel`. -/
theorem C7_exit_twice_counterexample :
    ((CreateMetric 30000000000 sinkOk "tag" "host").Exit true).2 = Ctl.ret () ∧
      (((CreateMetric 30000000000 sinkOk "tag" "host").Exit true).1.Exit true).2 =
        Ctl.panicked "send on closed channel" := by
  decide

/-- C7 (amended) at a metric made by `CreateMetric`: the first `Exit()` closes
`Stop`, the second panics also when nobody receives. -/
theorem C7_exit_twice_witness :
    (CreateMetric 30000000000 sinkOk "tag" "host").Stop = ChanState.ready ∧
      ((CreateMetric 30000000000 sinkOk "tag" "host").Exit true).1.Stop = ChanState.closed ∧
      (((CreateMetric 30000000000 sinkOk "tag" "host").Exit true).1.Exit false).2 =
        Ctl.panicked "send on closed channel" :=
  ⟨rfl, (C7_exit_twice (CreateMetric 30000000000 sinkOk "tag" "host") false rfl).2.1,
    (C7_exit_twice (CreateMetric 30000000000 sinkOk "tag" "host") false rfl).2.2.2.1⟩

/-! ### C8: the stats timeout -/

/-- C8 (amended). For every `Metric` state whose counter source is reachable, when
the stats fetch delivers nothing before the force timeout and the fetch worker
takes the done signal (the send on the done channel is a blocking one),
`UpdateStats` returns the error `Get stats timeout` with an empty counter map and
leaves the `Metric`, so `Save` and `Last`, unchanged; the error differs from the
`Get stats failed` returned when the fetch yields a nil snapshot. -/
theorem C8_timeout (g g2 : Setting) (self : Metric) (env : Env) (cid : String) (pid : Nat)
    (hreach : env.procExists = true) (hsilent : g.client cid = Fetch.silent true)
    (hnil : g2.client cid = Fetch.delivered none) :
    (self.UpdateStats g env cid pid).ctl = Ctl.ret ([], some "Get stats timeout") ∧
      (self.UpdateStats g env cid pid).self = self ∧
      (self.UpdateStats g2 env cid pid).ctl = Ctl.ret ([], some "Get stats failed") ∧
      "Get stats timeout" ≠ "Get stats failed" := by
  simp [Metric.UpdateStats, hreach, hsilent, hnil]

/-- C8 fails as stated: when the force timer fires and the fetch worker never
receives from the done channel, `UpdateStats` blocks on `doneChan <- true` and
does not return. -/
theorem C8_timeout_counterexample :
    quietEnv.procExists = true ∧ deafSetting.client "c0ffee" = Fetch.silent false ∧
      ((metricAt0 sinkOk []).UpdateStats deafSetting quietEnv "c0ffee" 42).ctl = Ctl.blocked := by
  decide

/-- C8 (amended) at an example: reachable container, silent fetch whose worker
takes the done signal; the result is the timeout error with an empty map, and
`Save` is untouched. -/
theorem C8_timeout_witness :
    quietEnv.procExists = true ∧ ethSetting.client "c0ffee" = Fetch.silent true ∧
      ((metricAt0 sinkOk [("cpu_usage", 1000)]).UpdateStats ethSetting quietEnv "c0ffee" 42).ctl =
        Ctl.ret ([], some "Get stats timeout") ∧
      ((metricAt0 sinkOk [("cpu_usage", 1000)]).UpdateStats ethSetting quietEnv "c0ffee"
        42).self.Save = [("cpu_usage", 1000)] :=
  ⟨rfl, rfl,
    (C8_timeout ethSetting nilSetting (metricAt0 sinkOk [("cpu_usage", 1000)]) quietEnv
      "c0ffee" 42 rfl rfl rfl).1,
    congrArg Metric.Save
      (C8_timeout ethSetting nilSetting (metricAt0 sinkOk [("cpu_usage", 1000)]) quietEnv
        "c0ffee" 42 rfl rfl rfl).2.1⟩

/-! ### C9: `Send` -/

/-- C9 (amended). For every `Metric` state, rate map and `now`: `Send(rate)` called
after `CalcRate(info, now)` invokes the sink exactly once, with the rate map
unchanged, the metric's `Endpoint` and `Tag`, `timestamp` = `now` in Unix seconds
and `step = int64(Step.Seconds())`, the float64 seconds of `Step` truncated
toward zero; it returns exactly the sink's result and changes neither `Save` nor
`Last`. The step is the number of seconds of `Step` whenever `Step` is a whole
number of seconds. -/
theorem C9_send (g : Setting) (self : Metric) (info : Snapshot) (now : Time) (rate : RateMap) :
    (((self.CalcRate g info now).2.Send rate).1.Client.calls =
        self.Client.calls ++
          [SendCall.mk rate self.Endpoint self.Tag (Time.Unix now)
            (F64.toInt64 (Duration.Seconds self.Step))]) ∧
      (((self.CalcRate g info now).2.Send rate).2 =
        self.Client.reply (SendCall.mk rate self.Endpoint self.Tag (Time.Unix now)
          (F64.toInt64 (Duration.Seconds self.Step)))) ∧
      ((self.CalcRate g info now).2.Send rate).1.Save = self.Save ∧
      ((self.CalcRate g info now).2.Send rate).1.Last = now ∧
      (∀ s : Int, -(2 : Int) ^ 53 < s → s < (2 : Int) ^ 53 → self.Step = s * 1000000000 →
        F64.toInt64 (Duration.Seconds self.Step) = s) := by
  refine ⟨rfl, rfl, rfl, rfl, ?_⟩
  intro s hlo hhi hs
  rw [hs]
  exact Seconds_whole s hlo hhi

set_option maxRecDepth 8000 in
/-- C9 fails as stated: for `Step = 16777216.999999999 s` the sink is called with
`step = 16777217`, not with the 16777216 whole seconds of `Step`. The sum
`float64(16777216) + 0.999999999` is not a float64 (near `2^24` they are
`2^-28 ≈ 3.7e-9` apart) and rounds up to `16777217.0`. -/
theorem C9_send_counterexample :
    ((({ metricAt0 sinkOk [] with Step := 16777216999999999 }).CalcRate ethSetting []
        1000000000).2.Send []).1.Client.calls =
        [SendCall.mk [] "host" "tag" 1 16777217] ∧
      Int.tdiv 16777216999999999 1000000000 = 16777216 := by
  decide

/-- C9 (amended) at an example: a 30 s step, `now` = 1.5 s, a sink that rejects the
call; the sink gets one call with timestamp 1 and step 30, and its error comes
back. -/
theorem C9_send_witness :
    (((metricAt0 sinkDown [("cpu_usage", 1000)]).CalcRate ethSetting [("cpu_usage", 5000)]
        1500000000).2.Send [("cpu_usage_rate", F64.ofUInt64 2)]).1.Client.calls =
        [SendCall.mk [("cpu_usage_rate", F64.ofUInt64 2)] "host" "tag" 1 30] ∧
      (((metricAt0 sinkDown [("cpu_usage", 1000)]).CalcRate ethSetting [("cpu_usage", 5000)]
        1500000000).2.Send [("cpu_usage_rate", F64.ofUInt64 2)]).2 = some "connection refused" :=
  ⟨((C9_send ethSetting (metricAt0 sinkDown [("cpu_usage", 1000)]) [("cpu_usage", 5000)]
      1500000000 [("cpu_usage_rate", F64.ofUInt64 2)]).1).trans (by decide),
    (C9_send ethSetting (metricAt0 sinkDown [("cpu_usage", 1000)]) [("cpu_usage", 5000)]
      1500000000 [("cpu_usage_rate", F64.ofUInt64 2)]).2.1⟩

/-! ### C10: the visiting order -/

/-- C10 (amended). The rate map returned by `CalcRate` is the same for every order
in which the keys of the current snapshot are visited, provided the snapshot has
no pair of keys `k` and `k.rate` of which the first is taken by the VLAN case
and the second by the mem case. -/
theorem C10_order_independent (g : Setting) (self : Metric) (info1 info2 : Snapshot)
    (now : Time) (hnodup : (info1.map Prod.fst).Nodup) (hperm : info1.Perm info2)
    (hpair : ∀ kd ∈ info1, ∀ kd1 ∈ info1, kd1.1 = kd.1 ++ ".rate" →
      ruleOf g self.Save kd.1 kd.2 = Rule.vlan → ruleOf g self.Save kd1.1 kd1.2 ≠ Rule.mem) :
    (∀ key, (self.CalcRate g info1 now).1.lookup key = (self.CalcRate g info2 now).1.lookup key) ∧
      (self.CalcRate g info1 now).2 = (self.CalcRate g info2 now).2 := by
  refine ⟨?_, rfl⟩
  intro key
  rw [CalcRate_fst, CalcRate_fst]
  by_cases hw : ∃ kd ∈ info1, ∃ v, emit g self.Save (F64.ofInt64 (Time.Sub now self.Last))
      (Duration.Seconds (Time.Sub now self.Last)) kd = some (key, v)
  · obtain ⟨kd0, h0, v0, e0⟩ := hw
    have hall : ∀ kd ∈ info1, ∀ v, emit g self.Save (F64.ofInt64 (Time.Sub now self.Last))
        (Duration.Seconds (Time.Sub now self.Last)) kd = some (key, v) → v = v0 :=
      fun kd hkd v hv =>
        writers_agree g self.Save _ _ info1 hnodup key
          (fun a ha b hb h1 _ h3 => hpair a ha b hb h1 h3) hkd h0 hv e0
    rw [lookup_foldl_of_writers g self.Save _ _ key v0 info1 [] hall ⟨kd0, h0, v0, e0⟩,
      lookup_foldl_of_writers g self.Save _ _ key v0 info2 []
        (fun kd hkd => hall kd (hperm.mem_iff.mpr hkd)) ⟨kd0, hperm.mem_iff.mp h0, v0, e0⟩]
  · have hno : ∀ kd ∈ info1, ∀ v, emit g self.Save (F64.ofInt64 (Time.Sub now self.Last))
        (Duration.Seconds (Time.Sub now self.Last)) kd ≠ some (key, v) :=
      fun kd hkd v hv => hw ⟨kd, hkd, v, hv⟩
    rw [lookup_foldl_of_no_writer g self.Save _ _ key info1 [] hno,
      lookup_foldl_of_no_writer g self.Save _ _ key info2 []
        (fun kd hkd => hno kd (hperm.mem_iff.mpr hkd))]

/-- C10 fails as stated: with the zero-value settings and the saved snapshot
`{mem_usage.rate: 7}`, the current snapshot `{mem_usage: 10, mem_usage.rate: 5}`
gives `mem_usage.rate = float64(5)` when `mem_usage` is visited first and
`mem_usage.rate = 10` when it is visited last: both keys write the output key
`mem_usage.rate`, and the later write wins. -/
theorem C10_order_independent_counterexample :
    List.Perm ([("mem_usage", 10), ("mem_usage.rate", 5)] : Snapshot)
        [("mem_usage.rate", 5), ("mem_usage", 10)] ∧
      ((metricAt0 sinkOk [("mem_usage.rate", 7)]).CalcRate zeroSetting
          [("mem_usage", 10), ("mem_usage.rate", 5)] 1000000000).1.lookup "mem_usage.rate" =
        some (F64.ofUInt64 5) ∧
      ((metricAt0 sinkOk [("mem_usage.rate", 7)]).CalcRate zeroSetting
          [("mem_usage.rate", 5), ("mem_usage", 10)] 1000000000).1.lookup "mem_usage.rate" =
        some (F64.ofUInt64 10) ∧
      F64.ofUInt64 5 ≠ F64.ofUInt64 10 := by
  decide

/-- C10 (amended) at an example: with VLAN prefix `eth`, a snapshot of three keys
visited in one order and in the reverse order gives the same `eth0_rx.rate`. -/
theorem C10_order_independent_witness :
    (([("cpu_usage", 5000), ("eth0_rx", 1100), ("mem_usage", 7)] : Snapshot).map
        Prod.fst).Nodup ∧
      List.Perm ([("cpu_usage", 5000), ("eth0_rx", 1100), ("mem_usage", 7)] : Snapshot)
        [("mem_usage", 7), ("eth0_rx", 1100), ("cpu_usage", 5000)] ∧
      ((metricAt0 sinkOk [("cpu_usage", 1000), ("eth0_rx", 100)]).CalcRate ethSetting
          [("cpu_usage", 5000), ("eth0_rx", 1100), ("mem_usage", 7)] 1000000000).1.lookup
          "eth0_rx.rate" =
        ((metricAt0 sinkOk [("cpu_usage", 1000), ("eth0_rx", 100)]).CalcRate ethSetting
          [("mem_usage", 7), ("eth0_rx", 1100), ("cpu_usage", 5000)] 1000000000).1.lookup
          "eth0_rx.rate" :=
  ⟨by decide, by decide,
    (C10_order_independent ethSetting (metricAt0 sinkOk [("cpu_usage", 1000), ("eth0_rx", 100)])
      [("cpu_usage", 5000), ("eth0_rx", 1100), ("mem_usage", 7)]
      [("mem_usage", 7), ("eth0_rx", 1100), ("cpu_usage", 5000)] 1000000000
      (by decide) (by decide) (by decide)).1 "eth0_rx.rate"⟩

end DockerMetrics
